import Mathlib

/-!
Formal model of the contract-selection and scoring engine of the
`wheel-system` repository (`apps/worker/src/build_csp_picks.py`,
`apps/worker/src/build_cc_picks.py`, `apps/worker/src/config/wheel_rules.py`).

Python floats are modelled as exact rationals (`ℚ`); dates are modelled as
integer day numbers, so that `(d2 - d1).days` becomes plain integer
subtraction; `_safe_float` of a missing or non-numeric field is modelled by
`Option ℚ` being `none`.  The composite `contract_score` of the source
contains the irrational term `5 / math.sqrt(open_interest + 1)`, so scores
are represented symbolically by the triple `q - c/√a` (`SqrtScore` below)
together with an exact, verified decision procedure `SqrtScore.ltB` for
comparing two such values.
-/

namespace WheelSystem

/-- Symbolic representation of a score of the form `q - c / √a`
(in the source: `contract_score = annualized_yield - spread_pct*10
- 5/sqrt(oi+1) + abs_delta*10`, so `q` collects the rational summands,
`c = 5` and `a = oi + 1`). -/
structure SqrtScore where
  q : ℚ
  c : ℚ
  a : ℚ
  deriving DecidableEq, Repr

/-- Exact decision procedure for `q₁ - c₁/√a₁ < q₂ - c₂/√a₂`.
Sound when `0 < s.c`, `0 ≤ t.c`, `0 < s.a`, `0 < t.a`
(see `SqrtScore.ltB_iff`). -/
def SqrtScore.ltB (s t : SqrtScore) : Bool :=
  if s.q - t.q ≤ 0 ∧ t.c ^ 2 / t.a ≤ (s.q - t.q) ^ 2 then true
  else if s.q - t.q = 0 then
    decide (0 < s.c ^ 2 / s.a - t.c ^ 2 / t.a - (s.q - t.q) ^ 2)
  else if 0 < s.q - t.q then
    decide (0 < s.c ^ 2 / s.a - t.c ^ 2 / t.a - (s.q - t.q) ^ 2 ∧
      4 * (s.q - t.q) ^ 2 * (t.c ^ 2 / t.a) <
        (s.c ^ 2 / s.a - t.c ^ 2 / t.a - (s.q - t.q) ^ 2) ^ 2)
  else
    decide (0 ≤ s.c ^ 2 / s.a - t.c ^ 2 / t.a - (s.q - t.q) ^ 2 ∨
      (s.c ^ 2 / s.a - t.c ^ 2 / t.a - (s.q - t.q) ^ 2) ^ 2 <
        4 * (s.q - t.q) ^ 2 * (t.c ^ 2 / t.a))

/-- The real number denoted by a `SqrtScore` (semantic value only; the
program itself manipulates the symbolic triple). -/
noncomputable def SqrtScore.val (s : SqrtScore) : ℝ :=
  (s.q : ℝ) - (s.c : ℝ) / Real.sqrt (s.a : ℝ)

/-! ## `config/wheel_rules.py` -/

/-- The `WheelRules` frozen dataclass (the fields used by the selection
engine; the snake_case properties of the source are aliases of these). -/
structure WheelRules where
  CSP_DELTA_MIN : ℚ
  CSP_DELTA_MAX : ℚ
  CC_DELTA_MIN : ℚ
  CC_DELTA_MAX : ℚ
  DTE_MIN_PRIMARY : ℤ
  DTE_MAX_PRIMARY : ℤ
  DTE_MIN_FALLBACK : ℤ
  DTE_MAX_FALLBACK : ℤ
  EARNINGS_AVOID_DAYS : ℤ
  MAX_SPREAD_PCT : ℚ
  MIN_OPEN_INTEREST : ℚ
  MIN_BID : ℚ
  MIN_CREDIT : ℚ
  SPREAD_TIER_1_MAX_MID : ℚ
  SPREAD_TIER_2_MAX_MID : ℚ
  SPREAD_TIER_3_MAX_MID : ℚ
  SPREAD_TIER_1_MAX_ABS : ℚ
  SPREAD_TIER_2_MAX_ABS : ℚ
  SPREAD_TIER_3_MAX_ABS : ℚ
  SPREAD_TIER_4_MAX_ABS : ℚ
  MIN_UNDERLYING_PRICE : ℚ
  MAX_CSP_NOTIONAL : ℚ
  ALLOW_FALLBACK_DTE : Bool

/-- The environment-variable defaults of `WheelRules`. -/
def defaultRules : WheelRules where
  CSP_DELTA_MIN := 0.20
  CSP_DELTA_MAX := 0.30
  CC_DELTA_MIN := 0.20
  CC_DELTA_MAX := 0.30
  DTE_MIN_PRIMARY := 5
  DTE_MAX_PRIMARY := 9
  DTE_MIN_FALLBACK := 10
  DTE_MAX_FALLBACK := 16
  EARNINGS_AVOID_DAYS := 10
  MAX_SPREAD_PCT := 7.5
  MIN_OPEN_INTEREST := 10
  MIN_BID := 0.05
  MIN_CREDIT := 0.25
  SPREAD_TIER_1_MAX_MID := 1.00
  SPREAD_TIER_2_MAX_MID := 3.00
  SPREAD_TIER_3_MAX_MID := 8.00
  SPREAD_TIER_1_MAX_ABS := 0.10
  SPREAD_TIER_2_MAX_ABS := 0.25
  SPREAD_TIER_3_MAX_ABS := 0.50
  SPREAD_TIER_4_MAX_ABS := 1.00
  MIN_UNDERLYING_PRICE := 10.0
  MAX_CSP_NOTIONAL := 60000.0
  ALLOW_FALLBACK_DTE := true

/-- `wheel_rules.abs_spread_cap_for_mid`. -/
def abs_spread_cap_for_mid (mid : ℚ) (rules : WheelRules) : ℚ :=
  if mid < rules.SPREAD_TIER_1_MAX_MID then rules.SPREAD_TIER_1_MAX_ABS
  else if mid < rules.SPREAD_TIER_2_MAX_MID then rules.SPREAD_TIER_2_MAX_ABS
  else if mid < rules.SPREAD_TIER_3_MAX_MID then rules.SPREAD_TIER_3_MAX_ABS
  else rules.SPREAD_TIER_4_MAX_ABS

/-- The details dict returned by `wheel_rules.spread_ok` when its values are
not `None` (the all-`None` dict of the early-return branches is modelled as
`Option SpreadDetails = none`). -/
structure SpreadDetails where
  mid : ℚ
  spread_abs : ℚ
  spread_pct : ℚ
  abs_cap_used : ℚ
  deriving DecidableEq, Repr

/-- `wheel_rules.spread_ok` (returns `(ok, details)`). -/
def spread_ok (bid ask : ℚ) (rules : WheelRules) : Bool × Option SpreadDetails :=
  if bid ≤ 0 ∨ ask ≤ 0 then (false, none)
  else if ask < bid then (false, none)
  else
    let mid := (bid + ask) / 2
    if mid ≤ 0 then (false, none)
    else
      let spread_abs := ask - bid
      let spread_pct := if 0 < mid then spread_abs / mid * 100 else 0
      let abs_cap := abs_spread_cap_for_mid mid rules
      (decide (spread_pct ≤ rules.MAX_SPREAD_PCT) && decide (spread_abs ≤ abs_cap),
        some ⟨mid, spread_abs, spread_pct, abs_cap⟩)

/-- `wheel_rules.is_within_dte_window` (dates are integer day numbers, and
the `now` default argument is always passed explicitly). -/
def is_within_dte_window (expiration_date now : ℤ)
    (min_dte max_dte : Option ℤ) : Bool :=
  if expiration_date ≤ now then false
  else if (match min_dte with
           | some m => decide (expiration_date - now < m)
           | none => false) then false
  else if (match max_dte with
           | some m => decide (m < expiration_date - now)
           | none => false) then false
  else true

/-- `wheel_rules.earnings_ok` (the `avoid_days = None` default is `10`). -/
def earnings_ok (earnings_date : Option ℤ) (now : ℤ)
    (avoid_days : Option ℤ) : Bool :=
  match earnings_date with
  | none => true
  | some e =>
    let avoid := avoid_days.getD 10
    if e < now then true
    else decide (avoid < e - now)

/-- `wheel_rules.find_expiration_in_window`: filter to strictly-future
dates, sort ascending, return the first one inside the DTE window. -/
def find_expiration_in_window (expirations : List ℤ) (min_dte max_dte : ℤ)
    (now : ℤ) : Option ℤ :=
  let future := (expirations.filter (fun d => decide (now < d))).insertionSort (· ≤ ·)
  future.find? (fun e => is_within_dte_window e now (some min_dte) (some max_dte))

/-! ## `build_csp_picks.py`: option entries and the contract selector -/

/-- One row of the Schwab option chain as consumed by the selector.
Every field goes through `_safe_float`, so a missing or non-numeric value
is `none`. -/
structure OptionEntry where
  delta : Option ℚ
  bid : Option ℚ
  ask : Option ℚ
  mark : Option ℚ
  last : Option ℚ
  strike : Option ℚ
  openInterest : Option ℚ
  deriving DecidableEq, Repr

/-- `build_csp_picks._check_liquidity` (the reason strings, used only for
logging, are dropped): requires `bid >= MIN_CREDIT`, a positive ask,
`spread_ok`, and `oi >= MIN_OPEN_INTEREST`. -/
def check_liquidity (o : OptionEntry) (rules : WheelRules) :
    Bool × Option SpreadDetails :=
  let bid := o.bid.getD 0
  let ask := o.ask.getD 0
  if bid < rules.MIN_CREDIT then (false, none)
  else if ask ≤ 0 then (false, none)
  else
    let res := spread_ok bid ask rules
    if res.1 = false then (false, res.2)
    else
      let oi := o.openInterest.getD 0
      if oi < rules.MIN_OPEN_INTEREST then (false, res.2)
      else (true, res.2)

/-- The premium estimate of `_choose_best_put_in_delta_band`
(and `_choose_best_call_in_delta_band`): prefer `mark`, fall back to the
bid/ask mid (when both are truthy), then to `last`. -/
def premium_estimate (o : OptionEntry) : Option ℚ :=
  let bid := o.bid.getD 0
  let ask := o.ask.getD 0
  let mark1 := match o.mark with
    | some m => some m
    | none => if bid ≠ 0 ∧ ask ≠ 0 then some ((bid + ask) / 2) else none
  match mark1 with
  | some m => some m
  | none => o.last

/-- A candidate built by `_choose_best_put_in_delta_band` (the entry dict
augmented with the `_abs_delta`, `_premium`, `_annualized_yield`, `_mid`,
`_spread_abs`, `_spread_pct` and `_contract_score` keys). -/
structure PutCandidate where
  entry : OptionEntry
  abs_delta : ℚ
  premium : ℚ
  annualized_yield : ℚ
  mid : ℚ
  spread_abs : ℚ
  spread_pct : ℚ
  contract_score : SqrtScore
  deriving DecidableEq, Repr

/-- The loop body of `_choose_best_put_in_delta_band`: `none` when the entry
is filtered out, otherwise the augmented candidate.  The filters, in source
order: numeric delta, `abs(delta)` in the band, `_check_liquidity`, valid
spread details, positive premium estimate, positive strike, and
`annualized_yield <= MAX_ANNUALIZED_YIELD`. -/
def put_candidate_of (target_delta_low target_delta_high : ℚ) (dte : ℤ)
    (rules : WheelRules) (max_annualized_yield : ℚ) (o : OptionEntry) :
    Option PutCandidate :=
  match o.delta with
  | none => none
  | some d =>
    if target_delta_low ≤ |d| ∧ |d| ≤ target_delta_high then
      let liq := check_liquidity o rules
      if liq.1 = false then none
      else match liq.2 with
        | none => none
        | some sd =>
          match premium_estimate o with
          | some mark =>
            if 0 < mark then
              match o.strike with
              | some strike =>
                if 0 < strike then
                  (let ann_yield := mark / strike * (365 / (dte : ℚ))
                   if ann_yield ≤ max_annualized_yield then
                     some { entry := o, abs_delta := |d|, premium := mark,
                            annualized_yield := ann_yield, mid := sd.mid,
                            spread_abs := sd.spread_abs,
                            spread_pct := sd.spread_pct,
                            contract_score :=
                              ⟨ann_yield - sd.spread_pct * 10 + |d| * 10, 5,
                               o.openInterest.getD 0 + 1⟩ }
                   else none)
                else none
              | none => none
            else none
          | none => none
    else none

/-- `candidates.sort(key=..._contract_score, reverse=True); return
candidates[0]`: Python's sort is stable, so the result is the first
candidate of maximal `contract_score`, which this left fold computes. -/
def pick_best_by_score (cs : List PutCandidate) : Option PutCandidate :=
  match cs with
  | [] => none
  | c :: rest =>
    some (rest.foldl
      (fun best x => if best.contract_score.ltB x.contract_score then x else best) c)

/-- `build_csp_picks._choose_best_put_in_delta_band`. -/
def choose_best_put_in_delta_band (options : List OptionEntry)
    (target_delta_low target_delta_high : ℚ) (dte : ℤ) (rules : WheelRules)
    (max_annualized_yield : ℚ) : Option PutCandidate :=
  if options.isEmpty then none
  else pick_best_by_score
    (options.filterMap
      (put_candidate_of target_delta_low target_delta_high dte rules
        max_annualized_yield))

/-- The filter predicate of the C1 claim, as a decidable boolean: the entry
has a numeric delta inside the band, passes the liquidity checks, has a
positive premium estimate and strike, and annualized yield at most the cap. -/
def put_passes (o : OptionEntry) (target_delta_low target_delta_high : ℚ)
    (dte : ℤ) (rules : WheelRules) (max_annualized_yield : ℚ) : Bool :=
  match o.delta, premium_estimate o, o.strike with
  | some d, some mark, some strike =>
    decide (target_delta_low ≤ |d|) && decide (|d| ≤ target_delta_high) &&
    (check_liquidity o rules).1 && decide (0 < mark) && decide (0 < strike) &&
    decide (mark / strike * (365 / (dte : ℚ)) ≤ max_annualized_yield)
  | _, _, _ => false

/-- The spread details that `_check_liquidity`/`spread_ok` computes for an
entry. -/
def entry_spread_details (o : OptionEntry) (rules : WheelRules) :
    Option SpreadDetails :=
  (spread_ok (o.bid.getD 0) (o.ask.getD 0) rules).2

/-- The `spread_pct` of the entry's spread details (`0` when the details
dict is all-`None`; only used on entries whose liquidity check passed,
where the details exist). -/
def entry_spread_pct (o : OptionEntry) (rules : WheelRules) : ℚ :=
  match entry_spread_details o rules with
  | some sd => sd.spread_pct
  | none => 0

/-- The `mid` of the entry's spread details (`0` when absent). -/
def entry_spread_mid (o : OptionEntry) (rules : WheelRules) : ℚ :=
  match entry_spread_details o rules with
  | some sd => sd.mid
  | none => 0

/-- The `spread_abs` of the entry's spread details (`0` when absent). -/
def entry_spread_abs (o : OptionEntry) (rules : WheelRules) : ℚ :=
  match entry_spread_details o rules with
  | some sd => sd.spread_abs
  | none => 0

/-- The candidate that `_choose_best_put_in_delta_band` builds for a passing
entry, written as a function of the entry alone (on passing entries the
`Option` fields are present, so the `getD` defaults are never used). -/
def put_candidate_mk (dte : ℤ) (rules : WheelRules) (o : OptionEntry) :
    PutCandidate :=
  let d := o.delta.getD 0
  let mark := (premium_estimate o).getD 0
  let strike := o.strike.getD 0
  let ann_yield := mark / strike * (365 / (dte : ℚ))
  let spct := entry_spread_pct o rules
  { entry := o, abs_delta := |d|, premium := mark,
    annualized_yield := ann_yield, mid := entry_spread_mid o rules,
    spread_abs := entry_spread_abs o rules, spread_pct := spct,
    contract_score :=
      ⟨ann_yield - spct * 10 + |d| * 10, 5, o.openInterest.getD 0 + 1⟩ }

/-- The C3 claim's characterization of `spread_ok`, written out from the
spec sentence: positive bid and ask, ask at least bid, percentage spread
`100*(ask-bid)/mid` within `MAX_SPREAD_PCT`, and absolute spread within the
tiered cap selected by `mid = (bid+ask)/2`. -/
def spread_ok_spec (bid ask : ℚ) (rules : WheelRules) : Prop :=
  0 < bid ∧ 0 < ask ∧ bid ≤ ask ∧
  100 * (ask - bid) / ((bid + ask) / 2) ≤ rules.MAX_SPREAD_PCT ∧
  ask - bid ≤
    (if (bid + ask) / 2 < rules.SPREAD_TIER_1_MAX_MID then
       rules.SPREAD_TIER_1_MAX_ABS
     else if (bid + ask) / 2 < rules.SPREAD_TIER_2_MAX_MID then
       rules.SPREAD_TIER_2_MAX_ABS
     else if (bid + ask) / 2 < rules.SPREAD_TIER_3_MAX_MID then
       rules.SPREAD_TIER_3_MAX_ABS
     else rules.SPREAD_TIER_4_MAX_ABS)

/-- The composite contract score of the C1 claim as a real number:
`annualized_yield - 10*spread_pct - 5/sqrt(open_interest + 1)
+ 10*abs(delta)` with `annualized_yield = (mark / strike) * (365 / dte)`. -/
noncomputable def put_claim_score (o : OptionEntry) (rules : WheelRules)
    (dte : ℤ) : ℝ :=
  (((premium_estimate o).getD 0 / (o.strike.getD 0) * (365 / (dte : ℚ)) : ℚ) : ℝ)
    - 10 * ((entry_spread_pct o rules : ℚ) : ℝ)
    - 5 / Real.sqrt ((o.openInterest.getD 0 : ℚ) + 1 : ℚ)
    + 10 * ((|o.delta.getD 0| : ℚ) : ℝ)

/-! ## `build_cc_picks.py`: the covered-call selector

`build_cc_picks._check_liquidity` still calls `wheel_rules.spread_ok` with
the old keyword signature
`spread_ok(bid=…, ask=…, max_spread_pct=…, max_abs_low=rules.max_abs_spread_low_premium, max_abs_high=…)`,
but `WheelRules` no longer has a `max_abs_spread_low_premium` attribute and
`spread_ok` now takes `(bid, ask, rules)`.  Evaluating the call's arguments
therefore raises `AttributeError` whenever the call site is reached, i.e.
whenever `bid >= MIN_BID` and `ask > 0`.  The open-interest check and the
success return below that call are unreachable, which the model reflects. -/

/-- Outcome of `build_cc_picks._check_liquidity`: rejection before the
`spread_ok` call, or the `AttributeError` raised by evaluating
`rules.max_abs_spread_low_premium` at the stale `spread_ok` call site
(reaching `return True, None` is impossible). -/
inductive CCLiquidity where
  | rejected
  | attributeError
  deriving DecidableEq, Repr

/-- `build_cc_picks._check_liquidity`: `bid < MIN_BID` or `ask <= 0` reject
the entry; otherwise the stale `spread_ok` call raises. -/
def cc_check_liquidity (o : OptionEntry) (rules : WheelRules) : CCLiquidity :=
  let bid := o.bid.getD 0
  let ask := o.ask.getD 0
  if bid < rules.MIN_BID then .rejected
  else if ask ≤ 0 then .rejected
  else .attributeError

/-- The per-entry loop of `_choose_best_call_in_delta_band`: skip entries
with a missing delta or a delta outside `[target_delta_low,
target_delta_high]` (calls use the signed delta), then run the liquidity
check, whose `AttributeError` aborts the whole call.  The premium, strike,
OTM and yield logic of the source loop is unreachable (it follows a
successful liquidity check, which cannot happen), as is the final sort by
`_annualized_yield`. -/
def cc_loop (target_delta_low target_delta_high : ℚ) (rules : WheelRules) :
    List OptionEntry → Except Unit (Option OptionEntry)
  | [] => .ok none
  | o :: rest =>
    match o.delta with
    | none => cc_loop target_delta_low target_delta_high rules rest
    | some d =>
      if target_delta_low ≤ d ∧ d ≤ target_delta_high then
        match cc_check_liquidity o rules with
        | .rejected => cc_loop target_delta_low target_delta_high rules rest
        | .attributeError => .error ()
      else cc_loop target_delta_low target_delta_high rules rest

/-- `build_cc_picks._choose_best_call_in_delta_band`.  `.error ()` models the
`AttributeError` escaping the function; `.ok none` models `return None`.
`current_price`, `dte` and `allow_itm` are kept for signature fidelity; the
code using them is unreachable. -/
def choose_best_call_in_delta_band (options : List OptionEntry)
    (target_delta_low target_delta_high current_price : ℚ) (dte : ℤ)
    (rules : WheelRules) (allow_itm : Bool) : Except Unit (Option OptionEntry) :=
  if options.isEmpty then .ok none
  else cc_loop target_delta_low target_delta_high rules options

/-- The DTE window a pick was generated from. -/
inductive DteWindow where
  | primary
  | fallback
  deriving DecidableEq, Repr

/-- `build_cc_picks._pick_expiration_with_fallback`: primary window first,
fallback window only when the primary window has no expiration and
`ALLOW_FALLBACK_DTE` is set. -/
def pick_expiration_with_fallback (expirations : List ℤ) (rules : WheelRules)
    (now : ℤ) : Option (ℤ × DteWindow) :=
  match find_expiration_in_window expirations rules.DTE_MIN_PRIMARY
      rules.DTE_MAX_PRIMARY now with
  | some exp => some (exp, .primary)
  | none =>
    if rules.ALLOW_FALLBACK_DTE then
      match find_expiration_in_window expirations rules.DTE_MIN_FALLBACK
          rules.DTE_MAX_FALLBACK now with
      | some exp => some (exp, .fallback)
      | none => none
    else none

/-! ## `build_csp_picks.py`: per-window attempts and window selection -/

/-- The counters of `_count_put_contracts_diagnostics`. -/
structure PutDiagnostics where
  puts_total : ℕ
  delta_present : ℕ
  in_delta : ℕ
  bid_ok : ℕ
  spread_ok : ℕ
  oi_ok : ℕ
  deriving DecidableEq, Repr

/-- The all-zero diagnostics dict returned when no expiration or no puts are
found. -/
def zeroDiagnostics : PutDiagnostics :=
  { puts_total := 0, delta_present := 0, in_delta := 0, bid_ok := 0,
    spread_ok := 0, oi_ok := 0 }

/-- `build_csp_picks._count_put_contracts_diagnostics`. -/
def count_put_contracts_diagnostics (options : List OptionEntry)
    (target_delta_low target_delta_high : ℚ) (rules : WheelRules) :
    PutDiagnostics :=
  options.foldl
    (fun counts o =>
      let counts :=
        match o.delta with
        | some d =>
          let counts := { counts with delta_present := counts.delta_present + 1 }
          if target_delta_low ≤ |d| ∧ |d| ≤ target_delta_high then
            { counts with in_delta := counts.in_delta + 1 }
          else counts
        | none => counts
      let bid := o.bid.getD 0
      if rules.MIN_CREDIT ≤ bid then
        let counts := { counts with bid_ok := counts.bid_ok + 1 }
        let ask := o.ask.getD 0
        if 0 < ask then
          if (spread_ok bid ask rules).1 then
            let counts := { counts with spread_ok := counts.spread_ok + 1 }
            if rules.MIN_OPEN_INTEREST ≤ o.openInterest.getD 0 then
              { counts with oi_ok := counts.oi_ok + 1 }
            else counts
          else counts
        else counts
      else counts)
    { puts_total := options.length, delta_present := 0, in_delta := 0,
      bid_ok := 0, spread_ok := 0, oi_ok := 0 }

/-- The TD-style `putExpDateMap` of a Schwab chain, modelled as an
association list from expiration date to the flattened list of put entries
of that expiration (`"YYYY-MM-DD:##"` keys parse to the date, and the
per-strike lists are concatenated with the strike attached, exactly what
`_extract_put_options_for_exp` consumes). -/
def extract_put_options_for_exp (chain : List (ℤ × List OptionEntry))
    (exp : ℤ) : List OptionEntry :=
  (chain.filter (fun kv => kv.1 = exp)).foldr (fun kv acc => kv.2 ++ acc) []

/-- `_parse_expirations_from_chain`: the deduplicated sorted list of
expiration keys. -/
def parse_expirations_from_chain (chain : List (ℤ × List OptionEntry)) :
    List ℤ :=
  ((chain.map Prod.fst).dedup).insertionSort (· ≤ ·)

/-- `build_csp_picks.attempt_window`: find an expiration in the window,
extract its puts, compute the diagnostics and run
`_choose_best_put_in_delta_band` (which recomputes `today`; it equals the
`now` of the run).  The reason strings and the `best_in_delta` logging
payload are dropped. -/
def attempt_window (min_dte max_dte : ℤ) (chain : List (ℤ × List OptionEntry))
    (expirations : List ℤ) (rules : WheelRules) (now : ℤ)
    (max_annualized_yield : ℚ) :
    Option PutCandidate × Option ℤ × PutDiagnostics :=
  match find_expiration_in_window expirations min_dte max_dte now with
  | none => (none, none, zeroDiagnostics)
  | some exp =>
    let puts := extract_put_options_for_exp chain exp
    if puts.isEmpty then (none, none, zeroDiagnostics)
    else
      let diag := count_put_contracts_diagnostics puts rules.CSP_DELTA_MIN
        rules.CSP_DELTA_MAX rules
      let best := choose_best_put_in_delta_band puts rules.CSP_DELTA_MIN
        rules.CSP_DELTA_MAX (exp - now) rules max_annualized_yield
      (best, some exp, diag)

/-- The `underlying_breakdown` dict of `compute_underlying_bonus` (its
values are data for the claims here; the bonus computation itself is not
claim-relevant). -/
structure UnderlyingBreakdown where
  fundamentals_bonus : ℚ
  rsi_bonus : ℚ
  iv_bonus : ℚ
  mr_bonus : ℚ
  fundamentals_penalty : ℚ
  deriving DecidableEq, Repr

/-- `build_csp_picks.compute_total_score`, on symbolic scores.  In balanced
mode `total = contract_score + liquidity_bonus + underlying_bonus`; in
quality-first mode
`total = 0.60*fundamentals_component + 0.25*contract_score
+ 0.15*tacticals_component`, which scales the `- 5/√(oi+1)` term of the
contract score by `0.25`. -/
def compute_total_score (contract_score : SqrtScore)
    (liquidity_bonus underlying_bonus : ℚ) (breakdown : UnderlyingBreakdown)
    (fund_score : Option ℚ) (quality_first : Bool) : SqrtScore :=
  if quality_first then
    let fundamentals_component :=
      match fund_score with
      | some f => (f - 50) * 0.8
      | none => 0
    let tacticals_raw := breakdown.rsi_bonus + breakdown.iv_bonus +
      breakdown.mr_bonus
    let tacticals_component := max (-5) (min 10 tacticals_raw)
    ⟨0.60 * fundamentals_component + 0.25 * contract_score.q +
      0.15 * tacticals_component, 0.25 * contract_score.c, contract_score.a⟩
  else
    ⟨contract_score.q + liquidity_bonus + underlying_bonus,
      contract_score.c, contract_score.a⟩

/-- The `liquidity_bonus = max(0.0, (0.05 - spread_pct) * 100.0)` of the
window comparison and of pick creation. -/
def liquidity_bonus_of (spread_pct : ℚ) : ℚ :=
  max 0 ((0.05 - spread_pct) * 100)

/-- The `total_score` computed for a chosen contract (window comparison and
pick row both use this). -/
def candidate_total_score (best : PutCandidate) (underlying_bonus : ℚ)
    (breakdown : UnderlyingBreakdown) (fund_score : Option ℚ)
    (quality_first : Bool) : SqrtScore :=
  compute_total_score best.contract_score (liquidity_bonus_of best.spread_pct)
    underlying_bonus breakdown (some (fund_score.getD 50)) quality_first

/-- A window-selection outcome of `build_csp_picks.main` (lines 1378-1546):
the chosen contract, its expiration, and which DTE window it came from. -/
structure WindowChoice where
  best : PutCandidate
  exp : ℤ
  window : DteWindow
  deriving DecidableEq, Repr

/-- The window-selection logic of `build_csp_picks.main`: try the primary
window; when it succeeds and fallback is allowed, ALSO try the fallback
window and keep whichever contract has the strictly higher `total_score`
(primary wins ties); when the primary window fails, try the fallback window
only if fallback is allowed and the primary failure was a delta-band or
spread failure (`in_delta == 0`, or `in_delta > 0 and spread_ok == 0`).
(When `best_primary` is present its expiration is too, so matching on both
is faithful.) -/
def csp_select_window (chain : List (ℤ × List OptionEntry))
    (expirations : List ℤ) (rules : WheelRules) (now : ℤ)
    (max_annualized_yield : ℚ) (underlying_bonus : ℚ)
    (breakdown : UnderlyingBreakdown) (fund_score : Option ℚ)
    (quality_first : Bool) : Option WindowChoice :=
  let primres := attempt_window rules.DTE_MIN_PRIMARY rules.DTE_MAX_PRIMARY
    chain expirations rules now max_annualized_yield
  match primres.1, primres.2.1 with
  | some bp, some expP =>
    if rules.ALLOW_FALLBACK_DTE then
      let fbres := attempt_window rules.DTE_MIN_FALLBACK rules.DTE_MAX_FALLBACK
        chain expirations rules now max_annualized_yield
      match fbres.1, fbres.2.1 with
      | some bf, some expF =>
        let ts_primary := candidate_total_score bp underlying_bonus breakdown
          fund_score quality_first
        let ts_fallback := candidate_total_score bf underlying_bonus breakdown
          fund_score quality_first
        if ts_primary.ltB ts_fallback then some ⟨bf, expF, .fallback⟩
        else some ⟨bp, expP, .primary⟩
      | _, _ => some ⟨bp, expP, .primary⟩
    else some ⟨bp, expP, .primary⟩
  | _, _ =>
    let should_try_fallback := rules.ALLOW_FALLBACK_DTE = true ∧
      (primres.2.2.in_delta = 0 ∨
        (0 < primres.2.2.in_delta ∧ primres.2.2.spread_ok = 0))
    if should_try_fallback then
      let fbres := attempt_window rules.DTE_MIN_FALLBACK rules.DTE_MAX_FALLBACK
        chain expirations rules now max_annualized_yield
      match fbres.1, fbres.2.1 with
      | some bf, some expF => some ⟨bf, expF, .fallback⟩
      | _, _ => none
    else none

/-! ## `build_csp_picks.normalize_exposure_symbol`

Symbols are lists of characters.  `str.strip()` removes leading/trailing
whitespace, `str.upper()` is modelled on its ASCII fragment (tickers are
ASCII), `.replace(c, d)` with single-character arguments is a character map,
and `.split("-")[0]` is `takeWhile (· ≠ '-')`. -/

/-- The whitespace characters `str.strip()` removes (ASCII fragment). -/
def py_isspace (c : Char) : Bool :=
  c = ' ' ∨ c = '\t' ∨ c = '\n' ∨ c = '\x0d' ∨ c = '\x0b' ∨ c = '\x0c'

/-- `str.strip()`. -/
def py_strip (s : List Char) : List Char :=
  ((s.dropWhile py_isspace).reverse.dropWhile py_isspace).reverse

/-- The lowercase/uppercase pairs of ASCII `str.upper()`. -/
def lower_upper_pairs : List (Char × Char) :=
  [('a', 'A'), ('b', 'B'), ('c', 'C'), ('d', 'D'), ('e', 'E'), ('f', 'F'),
   ('g', 'G'), ('h', 'H'), ('i', 'I'), ('j', 'J'), ('k', 'K'), ('l', 'L'),
   ('m', 'M'), ('n', 'N'), ('o', 'O'), ('p', 'P'), ('q', 'Q'), ('r', 'R'),
   ('s', 'S'), ('t', 'T'), ('u', 'U'), ('v', 'V'), ('w', 'W'), ('x', 'X'),
   ('y', 'Y'), ('z', 'Z')]

/-- ASCII `str.upper()` on one character. -/
def py_upper_char (c : Char) : Char :=
  match lower_upper_pairs.find? (fun p => p.1 = c) with
  | some p => p.2
  | none => c

/-- ASCII `str.upper()`. -/
def py_upper (s : List Char) : List Char := s.map py_upper_char

/-- `.replace("/", ".")`. -/
def replace_slash (s : List Char) : List Char :=
  s.map (fun c => if c = '/' then '.' else c)

/-- `.replace("-", ".")`. -/
def replace_dash (s : List Char) : List Char :=
  s.map (fun c => if c = '-' then '.' else c)

/-- `build_csp_picks.normalize_exposure_symbol`. -/
def normalize_exposure_symbol (symbol : List Char) : List Char :=
  if symbol.isEmpty then symbol
  else
    let normalized := py_upper (py_strip symbol)
    if normalized = "GOOG".toList then "GOOGL".toList
    else if normalized = "BRK.A".toList ∨ normalized = "BRK-A".toList then
      "BRK.B".toList
    else if normalized = "BF.A".toList ∨ normalized = "BF-A".toList then
      "BF.B".toList
    else
      let normalized := replace_slash normalized
      if normalized.contains '-' then
        let ticker_base := normalized.takeWhile (fun c => c ≠ '-')
        if ticker_base = "BRK".toList ∨ ticker_base = "BF".toList then
          replace_dash normalized
        else normalized
      else normalized

/-! ## `build_csp_picks.main`: the pick-generation loop and portfolio
selection -/

/-- A screening candidate as consumed by `build_csp_picks.main`.  The option
chain fetched from Schwab is part of the candidate data; `underlying_bonus`,
`breakdown` and `fund_score` stand for the outputs of
`compute_underlying_bonus` / `_extract_fundamentals_score` on the
candidate's metrics (their computation is not claim-relevant). -/
structure ScreeningCandidate where
  ticker : List Char
  earn_in_days : Option ℚ
  metrics_earnings_in_days : Option ℚ
  chain : List (ℤ × List OptionEntry)
  underlying_bonus : ℚ
  breakdown : UnderlyingBreakdown
  fund_score : Option ℚ

/-- `earnings_in_days = c.get("earn_in_days")` with the metrics JSON as
fallback. -/
def resolve_earnings_in_days (c : ScreeningCandidate) : Option ℚ :=
  match c.earn_in_days with
  | some v => some v
  | none => c.metrics_earnings_in_days

/-- The earnings-exclusion gate of `build_csp_picks.main`:
skip when `earnings_in_days is not None and earnings_in_days <=
rules.earnings_avoid_days`. -/
def earnings_blocked (c : ScreeningCandidate) (rules : WheelRules) : Bool :=
  match resolve_earnings_in_days c with
  | some v => decide (v ≤ (rules.EARNINGS_AVOID_DAYS : ℚ))
  | none => false

/-- The fields of a generated CSP pick row needed by the claims (strings,
carried-through screening columns and logging metadata are dropped). -/
structure PickRow where
  ticker : List Char
  dte : ℤ
  expiration : ℤ
  strike : ℚ
  premium : ℚ
  annualized_yield : ℚ
  delta : Option ℚ
  target_delta : ℚ
  bid : ℚ
  total_score : SqrtScore
  required_cash : ℚ
  required_cash_net : ℚ
  earn_in_days : Option ℚ
  window : DteWindow
  deriving DecidableEq, Repr

/-- One iteration of the candidate loop of `build_csp_picks.main` (without
the duplicate-exposure gate, which `build_csp_picks_loop` applies before
accepting the row): the earnings gate, the chain and expiration checks, the
window selection, and the pick-row construction.  `best.spread_pct` is the
`spread_ok`-recomputed value (the source's single source of truth). -/
def build_pick_for_candidate (c : ScreeningCandidate) (rules : WheelRules)
    (now : ℤ) (max_annualized_yield : ℚ) (quality_first : Bool) :
    Option PickRow :=
  if earnings_blocked c rules then none
  else if c.chain.isEmpty then none
  else
    let expirations := parse_expirations_from_chain c.chain
    if expirations.isEmpty then none
    else
      match csp_select_window c.chain expirations rules now
          max_annualized_yield c.underlying_bonus c.breakdown c.fund_score
          quality_first with
      | none => none
      | some w =>
        let strike := w.best.entry.strike.getD 0
        let bid := w.best.entry.bid.getD 0
        let required_cash := strike * 100
        some
          { ticker := c.ticker, dte := w.exp - now, expiration := w.exp,
            strike := strike, premium := w.best.premium,
            annualized_yield := w.best.annualized_yield,
            delta := w.best.entry.delta, target_delta := w.best.abs_delta,
            bid := bid,
            total_score := candidate_total_score w.best c.underlying_bonus
              c.breakdown c.fund_score quality_first,
            required_cash := required_cash,
            required_cash_net := required_cash - bid * 100,
            earn_in_days := resolve_earnings_in_days c,
            window := w.window }

/-- The candidate loop of `build_csp_picks.main`: stop at the target pick
count, skip empty tickers, skip candidates that produce no pick, and drop
picks whose `normalize_exposure_symbol` key was already seen. -/
def build_csp_picks_loop (rules : WheelRules) (now : ℤ)
    (max_annualized_yield : ℚ) (quality_first : Bool) (target : ℕ) :
    List ScreeningCandidate → List (List Char) → List PickRow → List PickRow
  | [], _, picks => picks
  | c :: rest, seen, picks =>
    if target ≤ picks.length then picks
    else if c.ticker.isEmpty then
      build_csp_picks_loop rules now max_annualized_yield quality_first target
        rest seen picks
    else
      match build_pick_for_candidate c rules now max_annualized_yield
          quality_first with
      | none =>
        build_csp_picks_loop rules now max_annualized_yield quality_first
          target rest seen picks
      | some pick =>
        let key := normalize_exposure_symbol c.ticker
        if key ∈ seen then
          build_csp_picks_loop rules now max_annualized_yield quality_first
            target rest seen picks
        else
          build_csp_picks_loop rules now max_annualized_yield quality_first
            target rest (key :: seen) (picks ++ [pick])

/-- The pick rows generated by one run of `build_csp_picks`. -/
def build_csp_picks (cands : List ScreeningCandidate) (rules : WheelRules)
    (now : ℤ) (max_annualized_yield : ℚ) (quality_first : Bool)
    (target : ℕ) : List PickRow :=
  build_csp_picks_loop rules now max_annualized_yield quality_first target
    cands [] []

/-- The portfolio selection of `build_csp_picks.main` (lines 1957-2054):
sort by `total_score` descending, drop picks below `WHEEL_MIN_TOTAL_SCORE`
unless `WHEEL_ALLOW_NEGATIVE_SELECTION`, then select greedily subject to the
trade-count limit, the per-trade cash cap, and the running allocatable-cash
budget; a pick that does not fit is skipped but scanning continues.
Returns the selected picks in selection order. -/
def select_portfolio (picks : List PickRow)
    (allocatable_cash max_cash_per_trade min_total_score : ℚ)
    (max_trades : ℕ) (allow_negative : Bool) : List PickRow :=
  let sorted := picks.insertionSort
    (fun a b => a.total_score.ltB b.total_score = false)
  let eligible := if allow_negative then sorted
    else sorted.filter
      (fun p => p.total_score.ltB ⟨min_total_score, 0, 1⟩ = false)
  (eligible.foldl
    (fun (st : List PickRow × ℚ) p =>
      if max_trades ≤ st.1.length then st
      else if max_cash_per_trade < p.required_cash_net then st
      else if st.2 + p.required_cash_net ≤ allocatable_cash then
        (st.1 ++ [p], st.2 + p.required_cash_net)
      else st)
    ([], 0)).1

/-! ## Concrete data used by witnesses and counterexamples -/

/-- An all-zero `underlying_breakdown`. -/
def zeroBreakdown : UnderlyingBreakdown := ⟨0, 0, 0, 0, 0⟩

/-- A put quoted at 0.30/0.30, delta −0.25, strike 10, open interest 100
(passes every CSP filter at the default rules for a 7-day expiration). -/
def wput1 : OptionEntry :=
  { delta := some (-0.25), bid := some 0.30, ask := some 0.30, mark := none,
    last := none, strike := some 10, openInterest := some 100 }

/-- A richer put quoted at 0.60/0.60, delta −0.30, strike 10, open interest
10000 (passes every CSP filter at the default rules for a 12-day
expiration). -/
def wput2 : OptionEntry :=
  { delta := some (-0.30), bid := some 0.60, ask := some 0.60, mark := none,
    last := none, strike := some 10, openInterest := some 10000 }

/-- A chain with `wput1` at a primary-window expiration (day 7) and `wput2`
at a fallback-window expiration (day 12), relative to `now = 0`. -/
def wchain : List (ℤ × List OptionEntry) := [(7, [wput1]), (12, [wput2])]

/-- A screening candidate holding `wchain` with neutral metrics. -/
def wcand : ScreeningCandidate :=
  { ticker := "XYZ".toList, earn_in_days := none,
    metrics_earnings_in_days := none, chain := wchain, underlying_bonus := 0,
    breakdown := zeroBreakdown, fund_score := none }

/-- A candidate with earnings five days out (blocked at the default
`EARNINGS_AVOID_DAYS = 10`). -/
def wcand_earnings : ScreeningCandidate :=
  { wcand with ticker := "ABC".toList, earn_in_days := some 5 }

/-- A call squarely inside the CC delta band with a tight positive quote. -/
def wcall : OptionEntry :=
  { delta := some 0.25, bid := some 0.30, ask := some 0.30, mark := none,
    last := none, strike := some 10, openInterest := some 100 }

/-- The pick row that one run of `build_csp_picks` on `[wcand]` emits (the
fallback-window `wput2` contract wins on `total_score`). -/
def wrow : PickRow :=
  { ticker := "XYZ".toList, dte := 12, expiration := 12, strike := 10,
    premium := 3/5, annualized_yield := 73/40, delta := some (-3/10),
    target_delta := 3/10, bid := 3/5,
    total_score := ⟨393/40, 5, 10001⟩, required_cash := 1000,
    required_cash_net := 940, earn_in_days := none, window := .fallback }

/-- A pick row with the given total score and net cash requirement (for the
portfolio-selection witness). -/
def wpick (name : List Char) (ts rcn : ℚ) : PickRow :=
  { ticker := name, dte := 7, expiration := 7, strike := 10, premium := 1,
    annualized_yield := 1, delta := some (-0.25), target_delta := 0.25,
    bid := 1, total_score := ⟨ts, 5, 101⟩, required_cash := 1000,
    required_cash_net := rcn, earn_in_days := none, window := .primary }

/-! ## Theorems -/

/-- `0 ≤ x < y` implies `x² < y²` (helper for the radical comparisons). -/
theorem sq_lt_sq_of_lt_of_nonneg (x y : ℝ) (hx : 0 ≤ x) (hxy : x < y) :
    x ^ 2 < y ^ 2 := by nlinarith

/-- `x² < y²` with `0 ≤ x`, `0 < y` implies `x < y`. -/
theorem lt_of_sq_lt_sq_of_nonneg (x y : ℝ) (hx : 0 ≤ x) (hy : 0 < y)
    (h : x ^ 2 < y ^ 2) : x < y := by
  by_contra hc
  push_neg at hc
  nlinarith

/-- Branch 1 of the radical comparison: `d ≤ 0` and `v² ≤ d²` force
`d + v ≤ 0 < u`. -/
theorem radical_case1 (d u v : ℝ) (hu : 0 < u) (hv : 0 ≤ v)
    (hd : d ≤ 0) (hvd : v ^ 2 ≤ d ^ 2) : d + v < u := by
  have hdv : d + v ≤ 0 := by
    by_contra hc
    push_neg at hc
    have h1 : 0 < v - d := by linarith
    nlinarith
  linarith

/-- Branch 2 of the radical comparison (`d = 0`). -/
theorem radical_case2 (u v ru rv : ℝ) (hu : 0 < u) (hv : 0 ≤ v)
    (hu2 : u ^ 2 = ru) (hv2 : v ^ 2 = rv) :
    (0 : ℝ) + v < u ↔ 0 < ru - rv - (0 : ℝ) ^ 2 := by
  constructor
  · intro h
    have := sq_lt_sq_of_lt_of_nonneg v u hv (by linarith)
    nlinarith
  · intro h
    have hsq : v ^ 2 < u ^ 2 := by nlinarith
    have := lt_of_sq_lt_sq_of_nonneg v u hv hu hsq
    linarith

/-- Branch 3 of the radical comparison (`0 < d`). -/
theorem radical_case3 (d u v ru rv : ℝ) (hu : 0 < u) (hv : 0 ≤ v)
    (hu2 : u ^ 2 = ru) (hv2 : v ^ 2 = rv) (hd : 0 < d) :
    d + v < u ↔
      (0 < ru - rv - d ^ 2 ∧ 4 * d ^ 2 * rv < (ru - rv - d ^ 2) ^ 2) := by
  have hdv : 0 < d + v := by linarith
  have h2dv : 0 ≤ 2 * d * v := by positivity
  constructor
  · intro h
    have hsq : (d + v) ^ 2 < u ^ 2 := sq_lt_sq_of_lt_of_nonneg _ _ hdv.le h
    have he : 2 * d * v < ru - rv - d ^ 2 := by nlinarith
    refine ⟨by linarith, ?_⟩
    have := sq_lt_sq_of_lt_of_nonneg (2 * d * v) (ru - rv - d ^ 2) h2dv he
    nlinarith
  · rintro ⟨he1, he2⟩
    have he : 2 * d * v < ru - rv - d ^ 2 := by
      apply lt_of_sq_lt_sq_of_nonneg _ _ h2dv he1
      nlinarith
    have hsq : (d + v) ^ 2 < u ^ 2 := by nlinarith
    exact lt_of_sq_lt_sq_of_nonneg _ _ hdv.le hu hsq

/-- Branch 4 of the radical comparison (`d < 0` with `d² < v²`). -/
theorem radical_case4 (d u v ru rv : ℝ) (hu : 0 < u) (hv : 0 ≤ v)
    (hu2 : u ^ 2 = ru) (hv2 : v ^ 2 = rv) (hd : d < 0) (hdv : d ^ 2 < rv) :
    d + v < u ↔
      (0 ≤ ru - rv - d ^ 2 ∨ (ru - rv - d ^ 2) ^ 2 < 4 * d ^ 2 * rv) := by
  have hvpos : 0 < v := by nlinarith
  have hnd : -d < v := by
    apply lt_of_sq_lt_sq_of_nonneg (-d) v (by linarith) hvpos
    nlinarith
  have hdvpos : 0 < d + v := by linarith
  have h2dv : 2 * d * v < 0 := by nlinarith
  constructor
  · intro h
    have hsq : (d + v) ^ 2 < u ^ 2 := sq_lt_sq_of_lt_of_nonneg _ _ hdvpos.le h
    have he : 2 * d * v < ru - rv - d ^ 2 := by nlinarith
    by_cases he0 : 0 ≤ ru - rv - d ^ 2
    · exact Or.inl he0
    · push_neg at he0
      right
      nlinarith
  · rintro (he0 | hesq)
    · have hsq : (d + v) ^ 2 < u ^ 2 := by nlinarith
      exact lt_of_sq_lt_sq_of_nonneg _ _ hdvpos.le hu hsq
    · have he : 2 * d * v < ru - rv - d ^ 2 := by nlinarith
      have hsq : (d + v) ^ 2 < u ^ 2 := by nlinarith
      exact lt_of_sq_lt_sq_of_nonneg _ _ hdvpos.le hu hsq

/-- Soundness of the exact comparison: `ltB` decides the strict order of the
real values `q - c/√a`. -/
theorem SqrtScore.ltB_iff (s t : SqrtScore) (hsc : 0 < s.c) (htc : 0 ≤ t.c)
    (hsa : 0 < s.a) (hta : 0 < t.a) :
    s.ltB t = true ↔ s.val < t.val := by
  obtain ⟨q1, c1, a1⟩ := s
  obtain ⟨q2, c2, a2⟩ := t
  simp only at hsc htc hsa hta
  simp only [SqrtScore.val]
  have ha1R : (0 : ℝ) < (a1 : ℝ) := by exact_mod_cast hsa
  have ha2R : (0 : ℝ) < (a2 : ℝ) := by exact_mod_cast hta
  have hc1R : (0 : ℝ) < (c1 : ℝ) := by exact_mod_cast hsc
  have hc2R : (0 : ℝ) ≤ (c2 : ℝ) := by exact_mod_cast htc
  have hsq1 : (0 : ℝ) < Real.sqrt a1 := Real.sqrt_pos.mpr ha1R
  have hsq2 : (0 : ℝ) < Real.sqrt a2 := Real.sqrt_pos.mpr ha2R
  have hu : (0 : ℝ) < (c1 : ℝ) / Real.sqrt a1 := div_pos hc1R hsq1
  have hv : (0 : ℝ) ≤ (c2 : ℝ) / Real.sqrt a2 := div_nonneg hc2R hsq2.le
  have hu2 : ((c1 : ℝ) / Real.sqrt a1) ^ 2 = ((c1 ^ 2 / a1 : ℚ) : ℝ) := by
    rw [div_pow, Real.sq_sqrt ha1R.le]; push_cast; ring
  have hv2 : ((c2 : ℝ) / Real.sqrt a2) ^ 2 = ((c2 ^ 2 / a2 : ℚ) : ℝ) := by
    rw [div_pow, Real.sq_sqrt ha2R.le]; push_cast; ring
  have hmain : (q1 : ℝ) - c1 / Real.sqrt a1 < (q2 : ℝ) - c2 / Real.sqrt a2 ↔
      ((q1 - q2 : ℚ) : ℝ) + (c2 : ℝ) / Real.sqrt a2 < (c1 : ℝ) / Real.sqrt a1 := by
    push_cast
    constructor <;> intro h <;> linarith
  rw [hmain]
  simp only [SqrtScore.ltB]
  split_ifs with h1 h2 h3
  · simp only [true_iff]
    apply radical_case1 _ _ _ hu hv
    · exact_mod_cast h1.1
    · rw [hv2]
      calc ((c2 ^ 2 / a2 : ℚ) : ℝ) ≤ (((q1 - q2) ^ 2 : ℚ) : ℝ) := by
            exact_mod_cast h1.2
        _ = ((q1 - q2 : ℚ) : ℝ) ^ 2 := by push_cast; ring
  · rw [decide_eq_true_iff]
    have hz : ((q1 - q2 : ℚ) : ℝ) = 0 := by exact_mod_cast h2
    rw [hz]
    rw [radical_case2 ((c1 : ℝ) / Real.sqrt a1) ((c2 : ℝ) / Real.sqrt a2)
      ((c1 ^ 2 / a1 : ℚ) : ℝ) ((c2 ^ 2 / a2 : ℚ) : ℝ) hu hv hu2 hv2]
    have hzsq : ((q1 : ℝ) - (q2 : ℝ)) ^ 2 = 0 := by
      have hz2 : (q1 : ℝ) - (q2 : ℝ) = 0 := by push_cast at hz; linarith
      rw [hz2]; ring
    constructor <;> intro h
    · have hQ : (0 : ℝ) < ((c1 ^ 2 / a1 - c2 ^ 2 / a2 - (q1 - q2) ^ 2 : ℚ) : ℝ) := by
        exact_mod_cast h
      push_cast at hQ ⊢
      linarith [hzsq]
    · have hQ : (0 : ℝ) < ((c1 ^ 2 / a1 - c2 ^ 2 / a2 - (q1 - q2) ^ 2 : ℚ) : ℝ) := by
        push_cast
        push_cast at h
        linarith [hzsq]
      exact_mod_cast hQ
  · rw [decide_eq_true_iff]
    have hdpos : (0 : ℝ) < ((q1 - q2 : ℚ) : ℝ) := by exact_mod_cast h3
    rw [radical_case3 ((q1 - q2 : ℚ) : ℝ) ((c1 : ℝ) / Real.sqrt a1)
      ((c2 : ℝ) / Real.sqrt a2) ((c1 ^ 2 / a1 : ℚ) : ℝ) ((c2 ^ 2 / a2 : ℚ) : ℝ)
      hu hv hu2 hv2 hdpos]
    constructor <;> rintro ⟨hA, hB⟩ <;> constructor
    · have : ((0 : ℚ) : ℝ) < ((c1 ^ 2 / a1 - c2 ^ 2 / a2 - (q1 - q2) ^ 2 : ℚ) : ℝ) := by
        exact_mod_cast hA
      push_cast at this ⊢
      linarith
    · have : ((4 * (q1 - q2) ^ 2 * (c2 ^ 2 / a2) : ℚ) : ℝ) <
          (((c1 ^ 2 / a1 - c2 ^ 2 / a2 - (q1 - q2) ^ 2) ^ 2 : ℚ) : ℝ) := by
        exact_mod_cast hB
      push_cast at this ⊢
      linarith
    · have : ((0 : ℚ) : ℝ) < ((c1 ^ 2 / a1 - c2 ^ 2 / a2 - (q1 - q2) ^ 2 : ℚ) : ℝ) := by
        push_cast
        push_cast at hA
        linarith
      exact_mod_cast this
    · have : ((4 * (q1 - q2) ^ 2 * (c2 ^ 2 / a2) : ℚ) : ℝ) <
          (((c1 ^ 2 / a1 - c2 ^ 2 / a2 - (q1 - q2) ^ 2) ^ 2 : ℚ) : ℝ) := by
        push_cast
        push_cast at hB
        linarith
      exact_mod_cast this
  · rw [decide_eq_true_iff]
    have hdneg : ((q1 - q2 : ℚ) : ℝ) < 0 := by
      have : q1 - q2 < 0 := by
        rcases lt_trichotomy (q1 - q2) 0 with h | h | h
        · exact h
        · exact absurd h h2
        · exact absurd h h3
      exact_mod_cast this
    have hdv : ((q1 - q2 : ℚ) : ℝ) ^ 2 < ((c2 ^ 2 / a2 : ℚ) : ℝ) := by
      have hq : (q1 - q2) ^ 2 < c2 ^ 2 / a2 := by
        by_contra hc
        push_neg at hc
        exact h1 ⟨by exact_mod_cast hdneg.le, hc⟩
      calc ((q1 - q2 : ℚ) : ℝ) ^ 2 = (((q1 - q2) ^ 2 : ℚ) : ℝ) := by push_cast; ring
        _ < ((c2 ^ 2 / a2 : ℚ) : ℝ) := by exact_mod_cast hq
    rw [radical_case4 ((q1 - q2 : ℚ) : ℝ) ((c1 : ℝ) / Real.sqrt a1)
      ((c2 : ℝ) / Real.sqrt a2) ((c1 ^ 2 / a1 : ℚ) : ℝ) ((c2 ^ 2 / a2 : ℚ) : ℝ)
      hu hv hu2 hv2 hdneg hdv]
    constructor <;> rintro (hA | hB)
    · left
      have : ((0 : ℚ) : ℝ) ≤ ((c1 ^ 2 / a1 - c2 ^ 2 / a2 - (q1 - q2) ^ 2 : ℚ) : ℝ) := by
        exact_mod_cast hA
      push_cast at this ⊢
      linarith
    · right
      have : (((c1 ^ 2 / a1 - c2 ^ 2 / a2 - (q1 - q2) ^ 2) ^ 2 : ℚ) : ℝ) <
          ((4 * (q1 - q2) ^ 2 * (c2 ^ 2 / a2) : ℚ) : ℝ) := by
        exact_mod_cast hB
      push_cast at this ⊢
      linarith
    · left
      have : ((0 : ℚ) : ℝ) ≤ ((c1 ^ 2 / a1 - c2 ^ 2 / a2 - (q1 - q2) ^ 2 : ℚ) : ℝ) := by
        push_cast
        push_cast at hA
        linarith
      exact_mod_cast this
    · right
      have : (((c1 ^ 2 / a1 - c2 ^ 2 / a2 - (q1 - q2) ^ 2) ^ 2 : ℚ) : ℝ) <
          ((4 * (q1 - q2) ^ 2 * (c2 ^ 2 / a2) : ℚ) : ℝ) := by
        push_cast
        push_cast at hB
        linarith
      exact_mod_cast this

/-- When `spread_ok` returns `ok = True`, the details dict is populated. -/
theorem spread_ok_true_details (b a : ℚ) (r : WheelRules)
    (h : (spread_ok b a r).1 = true) : ∃ sd, (spread_ok b a r).2 = some sd := by
  simp only [spread_ok] at h ⊢
  split_ifs at h ⊢ <;> simp_all

/-- Everything `_check_liquidity` guarantees when it returns `True`. -/
theorem check_liquidity_true_parts (o : OptionEntry) (r : WheelRules)
    (h : (check_liquidity o r).1 = true) :
    (check_liquidity o r).2 = entry_spread_details o r ∧
    (spread_ok (o.bid.getD 0) (o.ask.getD 0) r).1 = true ∧
    r.MIN_OPEN_INTEREST ≤ o.openInterest.getD 0 ∧
    r.MIN_CREDIT ≤ o.bid.getD 0 ∧
    0 < o.ask.getD 0 := by
  simp only [check_liquidity, entry_spread_details] at h ⊢
  split_ifs at h ⊢ with h1 h2 h3 h4 <;>
    simp_all [le_of_not_lt, lt_of_not_le]

/-- When the liquidity check succeeds the spread details exist and are the
entry's spread details. -/
theorem check_liquidity_true_details (o : OptionEntry) (r : WheelRules)
    (h : (check_liquidity o r).1 = true) :
    ∃ sd, entry_spread_details o r = some sd ∧
      (check_liquidity o r).2 = some sd := by
  obtain ⟨h2, hso, -⟩ := check_liquidity_true_parts o r h
  obtain ⟨sd, hsd⟩ := spread_ok_true_details _ _ _ hso
  exact ⟨sd, by simpa [entry_spread_details] using hsd, by rw [h2]; simpa [entry_spread_details] using hsd⟩

/-- `C3`: `spread_ok` returns `ok = True` exactly under the claim's
characterization. -/
theorem c3_spread_ok_characterization (bid ask : ℚ) (rules : WheelRules) :
    (spread_ok bid ask rules).1 = true ↔ spread_ok_spec bid ask rules := by
  simp only [spread_ok]
  by_cases h1 : bid ≤ 0 ∨ ask ≤ 0
  · rw [if_pos h1]
    simp only [Bool.false_eq_true, false_iff, spread_ok_spec]
    rintro ⟨hb, ha, -⟩
    rcases h1 with h | h <;> linarith
  · rw [if_neg h1]
    push_neg at h1
    by_cases h2 : ask < bid
    · rw [if_pos h2]
      simp only [Bool.false_eq_true, false_iff, spread_ok_spec]
      rintro ⟨-, -, hba, -⟩
      linarith
    · rw [if_neg h2]
      push_neg at h2
      have hmid : 0 < (bid + ask) / 2 := by linarith [h1.1, h1.2]
      rw [if_neg (not_le.mpr hmid), if_pos hmid]
      simp only [Bool.and_eq_true, decide_eq_true_iff, spread_ok_spec,
        abs_spread_cap_for_mid]
      constructor
      · rintro ⟨hpct, habs⟩
        refine ⟨h1.1, h1.2, h2, ?_, habs⟩
        calc 100 * (ask - bid) / ((bid + ask) / 2)
            = (ask - bid) / ((bid + ask) / 2) * 100 := by ring
          _ ≤ rules.MAX_SPREAD_PCT := hpct
      · rintro ⟨-, -, -, hpct, habs⟩
        refine ⟨?_, habs⟩
        calc (ask - bid) / ((bid + ask) / 2) * 100
            = 100 * (ask - bid) / ((bid + ask) / 2) := by ring
          _ ≤ rules.MAX_SPREAD_PCT := hpct

/-- The loop body of `_choose_best_put_in_delta_band` produces a candidate
exactly for passing entries, and then produces `put_candidate_mk`. -/
theorem put_candidate_of_eq (lo hi : ℚ) (dte : ℤ) (rules : WheelRules)
    (my : ℚ) (o : OptionEntry) :
    put_candidate_of lo hi dte rules my o =
      if put_passes o lo hi dte rules my then
        some (put_candidate_mk dte rules o)
      else none := by
  rcases hd : o.delta with _ | d
  · simp [put_candidate_of, put_passes, hd]
  rcases hm : premium_estimate o with _ | mark
  · simp [put_candidate_of, put_passes, hd, hm]
    intro _ _ _
    cases (check_liquidity o rules).2 <;> rfl
  rcases hs : o.strike with _ | strike
  · simp [put_candidate_of, put_passes, hd, hm, hs]
    intro _ _ _
    cases (check_liquidity o rules).2 <;> rfl
  -- live case: all three fields present
  have hpass : put_passes o lo hi dte rules my =
      (decide (lo ≤ |d|) && decide (|d| ≤ hi) &&
       (check_liquidity o rules).1 && decide (0 < mark) &&
       decide (0 < strike) &&
       decide (mark / strike * (365 / (dte : ℚ)) ≤ my)) := by
    simp [put_passes, hd, hm, hs]
  by_cases hband : lo ≤ |d| ∧ |d| ≤ hi
  · by_cases hliq : (check_liquidity o rules).1 = true
    · obtain ⟨sd, hsd, hc2⟩ := check_liquidity_true_details o rules hliq
      have hnotfalse : ¬((check_liquidity o rules).1 = false) := by
        simp [hliq]
      by_cases hmark : 0 < mark
      · by_cases hstrike : 0 < strike
        · by_cases hyld : mark / strike * (365 / (dte : ℚ)) ≤ my
          · have hp : put_passes o lo hi dte rules my = true := by
              rw [hpass]
              simp [hband.1, hband.2, hliq, hmark, hstrike, hyld]
            rw [hp, if_pos rfl]
            simp only [put_candidate_of, hd, hm, hs, hc2]
            rw [if_pos hband, if_neg hnotfalse, if_pos hmark, if_pos hstrike,
              if_pos hyld]
            simp only [put_candidate_mk, entry_spread_pct, entry_spread_mid,
              entry_spread_abs, hsd, hd, hm, hs, Option.getD_some]
          · have hp : put_passes o lo hi dte rules my = false := by
              rw [hpass]
              simp [hyld]
            rw [hp]
            simp only [put_candidate_of, hd, hm, hs, hc2, Bool.false_eq_true,
              if_false]
            rw [if_pos hband, if_neg hnotfalse, if_pos hmark, if_pos hstrike,
              if_neg hyld]
        · have hp : put_passes o lo hi dte rules my = false := by
            rw [hpass]
            simp [hstrike]
          rw [hp]
          simp only [put_candidate_of, hd, hm, hs, hc2, Bool.false_eq_true,
            if_false]
          rw [if_pos hband, if_neg hnotfalse, if_pos hmark, if_neg hstrike]
      · have hp : put_passes o lo hi dte rules my = false := by
          rw [hpass]
          simp [hmark]
        rw [hp]
        simp only [put_candidate_of, hd, hm, hs, hc2, Bool.false_eq_true,
          if_false]
        rw [if_pos hband, if_neg hnotfalse, if_neg hmark]
    · have hliqf : (check_liquidity o rules).1 = false := by
        simpa using hliq
      have hp : put_passes o lo hi dte rules my = false := by
        rw [hpass]
        simp [hliqf]
      rw [hp]
      simp only [put_candidate_of, hd, hm, hs, Bool.false_eq_true, if_false]
      rw [if_pos hband, if_pos hliqf]
  · have hp : put_passes o lo hi dte rules my = false := by
      rw [hpass]
      rcases not_and_or.mp hband with h | h <;> simp [h]
    rw [hp]
    simp only [put_candidate_of, hd, hm, hs, Bool.false_eq_true, if_false]
    rw [if_neg hband]

/-- `pick_best_by_score` on an empty candidate list. -/
theorem pick_best_nil : pick_best_by_score [] = none := rfl

/-- `pick_best_by_score` on a non-empty candidate list. -/
theorem pick_best_cons (c : PutCandidate) (rest : List PutCandidate) :
    pick_best_by_score (c :: rest) =
      some (rest.foldl
        (fun best x => if best.contract_score.ltB x.contract_score then x else best)
        c) := rfl

/-- The fold of `pick_best_by_score` stays inside the candidate list. -/
theorem fold_best_mem (c : PutCandidate) (rest : List PutCandidate) :
    rest.foldl
      (fun best x => if best.contract_score.ltB x.contract_score then x else best)
      c ∈ c :: rest := by
  induction rest generalizing c with
  | nil => simp
  | cons x rs ih =>
    simp only [List.foldl_cons]
    rcases List.mem_cons.mp (ih (if c.contract_score.ltB x.contract_score then x else c)) with h | h
    · by_cases hb : c.contract_score.ltB x.contract_score <;> simp_all
    · simp [h]

/-- The fold of `pick_best_by_score` returns a candidate whose real score is
maximal, provided every candidate has coefficient `5` and a positive
radicand. -/
theorem fold_best_max (c : PutCandidate) (rest : List PutCandidate)
    (hval : ∀ x ∈ c :: rest, x.contract_score.c = 5 ∧ 0 < x.contract_score.a) :
    ∀ x ∈ c :: rest,
      x.contract_score.val ≤
        (rest.foldl
          (fun best x => if best.contract_score.ltB x.contract_score then x else best)
          c).contract_score.val := by
  induction rest generalizing c with
  | nil =>
    intro x hx
    simp only [List.mem_singleton] at hx
    simp [hx]
  | cons y rs ih =>
    have hcy : (if c.contract_score.ltB y.contract_score then y else c) ∈ c :: y :: rs := by
      by_cases hb : c.contract_score.ltB y.contract_score <;> simp [hb]
    have hval' : ∀ x ∈ (if c.contract_score.ltB y.contract_score then y else c) :: rs,
        x.contract_score.c = 5 ∧ 0 < x.contract_score.a := by
      intro x hx
      rcases List.mem_cons.mp hx with h | h
      · exact hval _ (h ▸ hcy)
      · exact hval _ (by simp [h])
    have hcv := hval c (by simp)
    have hyv := hval y (by simp)
    have hltb := SqrtScore.ltB_iff c.contract_score y.contract_score
      (by rw [hcv.1]; norm_num) (by rw [hyv.1]; norm_num) hcv.2 hyv.2
    intro x hx
    simp only [List.foldl_cons]
    have hmax := ih (if c.contract_score.ltB y.contract_score then y else c) hval'
    have hckey : c.contract_score.val ≤
        (if c.contract_score.ltB y.contract_score then y else c).contract_score.val := by
      by_cases hb : c.contract_score.ltB y.contract_score
      · rw [if_pos hb]
        exact (hltb.mp hb).le
      · rw [if_neg hb]
    have hykey : y.contract_score.val ≤
        (if c.contract_score.ltB y.contract_score then y else c).contract_score.val := by
      by_cases hb : c.contract_score.ltB y.contract_score
      · rw [if_pos hb]
      · rw [if_neg hb]
        by_contra hcon
        push_neg at hcon
        exact hb (hltb.mpr hcon)
    have hhead := hmax (if c.contract_score.ltB y.contract_score then y else c)
      (List.mem_cons_self _ _)
    rcases List.mem_cons.mp hx with h | h
    · subst h
      exact le_trans hckey hhead
    · rcases List.mem_cons.mp h with h2 | h2
      · subst h2
        exact le_trans hykey hhead
      · exact hmax x (List.mem_cons_of_mem _ h2)

/-- Every candidate in the filtered list comes from a passing entry and is
`put_candidate_mk` of that entry. -/
theorem filterMap_candidate_facts (options : List OptionEntry) (lo hi : ℚ)
    (dte : ℤ) (rules : WheelRules) (my : ℚ) :
    ∀ c ∈ options.filterMap (put_candidate_of lo hi dte rules my),
      c.entry ∈ options ∧ put_passes c.entry lo hi dte rules my = true ∧
      c = put_candidate_mk dte rules c.entry := by
  intro c hc
  obtain ⟨o, ho, hoc⟩ := List.mem_filterMap.mp hc
  rw [put_candidate_of_eq] at hoc
  by_cases hp : put_passes o lo hi dte rules my = true
  · rw [if_pos hp] at hoc
    have hce : c.entry = o := by
      rw [← Option.some_inj.mp hoc]
      rfl
    rw [hce]
    exact ⟨ho, hp, (Option.some_inj.mp hoc).symm⟩
  · simp [hp] at hoc

/-- When `_choose_best_put_in_delta_band` returns a candidate, it is the
augmented candidate of one of the passing input entries. -/
theorem choose_best_put_some_mk (options : List OptionEntry) (lo hi : ℚ)
    (dte : ℤ) (rules : WheelRules) (my : ℚ) (c : PutCandidate)
    (h : choose_best_put_in_delta_band options lo hi dte rules my = some c) :
    c.entry ∈ options ∧ put_passes c.entry lo hi dte rules my = true ∧
    c = put_candidate_mk dte rules c.entry := by
  have hsome : pick_best_by_score
      (options.filterMap (put_candidate_of lo hi dte rules my)) = some c := by
    by_cases hend : options.isEmpty
    · rw [choose_best_put_in_delta_band, if_pos hend] at h
      exact absurd h (Option.some_ne_none _).symm
    · rwa [choose_best_put_in_delta_band, if_neg hend] at h
  rcases hcands : options.filterMap (put_candidate_of lo hi dte rules my)
    with _ | ⟨c0, rest⟩
  · rw [hcands, pick_best_nil] at hsome
    exact absurd hsome (Option.some_ne_none _).symm
  rw [hcands, pick_best_cons] at hsome
  have hcmem : c ∈ options.filterMap (put_candidate_of lo hi dte rules my) := by
    rw [hcands, ← Option.some_inj.mp hsome]
    exact fold_best_mem c0 rest
  exact filterMap_candidate_facts options lo hi dte rules my c hcmem

/-- `C1`: `_choose_best_put_in_delta_band` returns `None` exactly when no
entry passes all filters (numeric delta in the band, liquidity, positive
premium estimate and strike, annualized yield within the cap); otherwise it
returns a passing entry maximizing the composite
`contract_score = annualized_yield - 10*spread_pct - 5/sqrt(oi+1)
+ 10*abs(delta)` with `annualized_yield = (mark/strike)*(365/dte)`. -/
theorem c1_choose_best_put_spec (options : List OptionEntry)
    (lo hi : ℚ) (dte : ℤ) (rules : WheelRules) (my : ℚ)
    (hoi : 0 ≤ rules.MIN_OPEN_INTEREST) :
    (choose_best_put_in_delta_band options lo hi dte rules my = none ↔
      ∀ o ∈ options, put_passes o lo hi dte rules my = false) ∧
    (∀ c, choose_best_put_in_delta_band options lo hi dte rules my = some c →
      c.entry ∈ options ∧ put_passes c.entry lo hi dte rules my = true ∧
      ∀ o ∈ options, put_passes o lo hi dte rules my = true →
        put_claim_score o rules dte ≤ put_claim_score c.entry rules dte) := by
  have hmem_cand := filterMap_candidate_facts options lo hi dte rules my
  have hval : ∀ c ∈ options.filterMap (put_candidate_of lo hi dte rules my),
      c.contract_score.c = 5 ∧ 0 < c.contract_score.a := by
    intro c hc
    obtain ⟨-, hp, hmk⟩ := hmem_cand c hc
    have hliq : (check_liquidity c.entry rules).1 = true := by
      rcases he : c.entry.delta with _ | d <;>
        rcases he2 : premium_estimate c.entry with _ | mark <;>
        rcases he3 : c.entry.strike with _ | strike <;>
        simp [put_passes, he, he2, he3] at hp
      tauto
    obtain ⟨-, -, hoil, -, -⟩ := check_liquidity_true_parts c.entry rules hliq
    constructor
    · rw [hmk]
      rfl
    · rw [hmk]
      show (0 : ℚ) < c.entry.openInterest.getD 0 + 1
      have := le_trans hoi hoil
      linarith
  have hscore : ∀ c ∈ options.filterMap (put_candidate_of lo hi dte rules my),
      c.contract_score.val = put_claim_score c.entry rules dte := by
    intro c hc
    obtain ⟨-, -, hmk⟩ := hmem_cand c hc
    rw [hmk]
    simp only [put_candidate_mk, SqrtScore.val, put_claim_score]
    push_cast
    ring
  constructor
  · -- `none` iff no entry passes
    simp only [choose_best_put_in_delta_band]
    by_cases hend : options.isEmpty
    · rw [if_pos hend]
      have : options = [] := List.isEmpty_iff.mp hend
      simp [this]
    · rw [if_neg hend]
      constructor
      · intro hnone o ho
        rcases hcands : options.filterMap (put_candidate_of lo hi dte rules my) with _ | ⟨c, rest⟩
        · have := List.filterMap_eq_nil_iff.mp hcands o ho
          rw [put_candidate_of_eq] at this
          by_contra hfalse
          rw [if_pos (by simpa using hfalse)] at this
          exact Option.some_ne_none _ this
        · rw [hcands, pick_best_cons] at hnone
          exact absurd hnone (Option.some_ne_none _)
      · intro hall
        have hcands : options.filterMap (put_candidate_of lo hi dte rules my) = [] := by
          apply List.filterMap_eq_nil_iff.mpr
          intro o ho
          rw [put_candidate_of_eq, if_neg]
          rw [hall o ho]
          simp
        rw [hcands, pick_best_nil]
  · -- the returned candidate is a passing entry of maximal claim score
    intro c hc
    have hsome : pick_best_by_score
        (options.filterMap (put_candidate_of lo hi dte rules my)) = some c := by
      by_cases hend : options.isEmpty
      · rw [choose_best_put_in_delta_band, if_pos hend] at hc
        exact absurd hc (Option.some_ne_none _).symm
      · rwa [choose_best_put_in_delta_band, if_neg hend] at hc
    rcases hcands : options.filterMap (put_candidate_of lo hi dte rules my) with _ | ⟨c0, rest⟩
    · rw [hcands, pick_best_nil] at hsome
      exact absurd hsome (Option.some_ne_none _).symm
    rw [hcands, pick_best_cons] at hsome
    have hcmem : c ∈ c0 :: rest := by
      rw [← Option.some_inj.mp hsome]
      exact fold_best_mem c0 rest
    have hcmem' : c ∈ options.filterMap (put_candidate_of lo hi dte rules my) := by
      rw [hcands]
      exact hcmem
    obtain ⟨hce, hcp, -⟩ := hmem_cand c hcmem'
    refine ⟨hce, hcp, ?_⟩
    intro o ho hop
    -- the candidate built from `o` is in the candidate list
    have homem : put_candidate_mk dte rules o ∈
        options.filterMap (put_candidate_of lo hi dte rules my) := by
      apply List.mem_filterMap.mpr
      exact ⟨o, ho, by rw [put_candidate_of_eq, if_pos hop]⟩
    have hmax := fold_best_max c0 rest (by rw [← hcands]; exact hval)
    have h1 := hmax (put_candidate_mk dte rules o) (by rw [← hcands]; exact homem)
    rw [Option.some_inj.mp hsome] at h1
    have h2 := hscore (put_candidate_mk dte rules o) homem
    have h3 := hscore c hcmem'
    have hoe : (put_candidate_mk dte rules o).entry = o := rfl
    rw [h2, h3, hoe] at h1
    exact h1

/-- A date inside a DTE window is strictly in the future. -/
theorem is_within_dte_window_future (e now : ℤ) (mn mx : Option ℤ)
    (h : is_within_dte_window e now mn mx = true) : now < e := by
  unfold is_within_dte_window at h
  split_ifs at h with h1 h2 h3
  omega

/-- A date not strictly in the future is outside every DTE window. -/
theorem is_within_dte_window_past (e now : ℤ) (mn mx : Option ℤ)
    (h : e ≤ now) : is_within_dte_window e now mn mx = false := by
  unfold is_within_dte_window
  rw [if_pos h]

/-- `find?` on a `≤`-sorted list returns a minimal element among those
satisfying the predicate. -/
theorem find_first_min (l : List ℤ) (p : ℤ → Bool) (hs : l.Sorted (· ≤ ·)) :
    ∀ e, l.find? p = some e → ∀ x ∈ l, p x = true → e ≤ x := by
  induction l with
  | nil => simp
  | cons a t ih =>
    intro e he x hx hp
    rw [List.find?_cons] at he
    cases hpa : p a
    · rw [hpa] at he
      simp only at he
      rcases List.mem_cons.mp hx with h | h
      · rw [h] at hp
        rw [hp] at hpa
        exact absurd hpa (by simp)
      · exact ih hs.of_cons e he x h hp
    · rw [hpa] at he
      simp only at he
      have hea : e = a := (Option.some_inj.mp he).symm
      subst hea
      rcases List.mem_cons.mp hx with h | h
      · rw [h]
      · exact List.rel_of_sorted_cons hs x h

/-- `C8`: `is_within_dte_window` holds exactly for strictly-future dates
whose day difference respects the optional inclusive bounds, and
`find_expiration_in_window` returns the earliest strictly-future expiration
satisfying the window (`None` exactly when none does). -/
theorem c8_dte_window_spec :
    (∀ (e now : ℤ) (mn mx : Option ℤ),
      is_within_dte_window e now mn mx = true ↔
        (now < e ∧ (∀ m, mn = some m → m ≤ e - now) ∧
          (∀ m, mx = some m → e - now ≤ m))) ∧
    (∀ (exps : List ℤ) (mn mx now : ℤ),
      (∀ e, find_expiration_in_window exps mn mx now = some e →
        (e ∈ exps ∧ is_within_dte_window e now (some mn) (some mx) = true ∧
          ∀ x ∈ exps,
            is_within_dte_window x now (some mn) (some mx) = true → e ≤ x)) ∧
      (find_expiration_in_window exps mn mx now = none ↔
        ∀ x ∈ exps, is_within_dte_window x now (some mn) (some mx) = false)) := by
  constructor
  · intro e now mn mx
    cases mn <;> cases mx <;> simp [is_within_dte_window]
  · intro exps mn mx now
    have hsort : List.Sorted (· ≤ ·)
        ((exps.filter (fun d => decide (now < d))).insertionSort (· ≤ ·)) :=
      List.sorted_insertionSort _ _
    have hperm : List.Perm
        ((exps.filter (fun d => decide (now < d))).insertionSort (· ≤ ·))
        (exps.filter (fun d => decide (now < d))) :=
      List.perm_insertionSort _ _
    have hmemf : ∀ x, x ∈ ((exps.filter (fun d => decide (now < d))).insertionSort
        (· ≤ ·)) ↔ (x ∈ exps ∧ now < x) := by
      intro x
      rw [hperm.mem_iff, List.mem_filter]
      simp
    constructor
    · intro e he
      simp only [find_expiration_in_window] at he
      have hpe := List.find?_some he
      have hmem := List.mem_of_find?_eq_some he
      have hin : e ∈ exps := ((hmemf e).mp hmem).1
      refine ⟨hin, hpe, ?_⟩
      intro x hx hpx
      have hxfut : x ∈ ((exps.filter (fun d => decide (now < d))).insertionSort
          (· ≤ ·)) :=
        (hmemf x).mpr ⟨hx, is_within_dte_window_future x now _ _ hpx⟩
      exact find_first_min _ _ hsort e he x hxfut hpx
    · simp only [find_expiration_in_window]
      rw [List.find?_eq_none]
      constructor
      · intro h x hx
        by_cases hfut : now < x
        · have := h x ((hmemf x).mpr ⟨hx, hfut⟩)
          simpa using this
        · exact is_within_dte_window_past x now _ _ (by omega)
      · intro h x hxf
        have := h x ((hmemf x).mp hxf).1
        simp [this]

/-- `build_cc_picks._check_liquidity` reaches its stale `spread_ok` call
(and so raises) exactly when `bid >= MIN_BID` and `ask > 0`. -/
theorem cc_check_liquidity_error_iff (o : OptionEntry) (rules : WheelRules) :
    cc_check_liquidity o rules = .attributeError ↔
      (rules.MIN_BID ≤ o.bid.getD 0 ∧ 0 < o.ask.getD 0) := by
  simp only [cc_check_liquidity]
  split_ifs with h1 h2
  · exact iff_of_false (by decide) (fun hc => absurd h1 (not_lt.mpr hc.1))
  · exact iff_of_false (by decide) (fun hc => absurd h2 (not_le.mpr hc.2))
  · exact iff_of_true rfl ⟨le_of_not_lt h1, lt_of_not_le h2⟩

/-- The covered-call loop never produces a contract. -/
theorem cc_loop_never_pick (lo hi : ℚ) (rules : WheelRules) :
    ∀ (opts : List OptionEntry) (e : OptionEntry),
      cc_loop lo hi rules opts ≠ .ok (some e) := by
  intro opts
  induction opts with
  | nil =>
    intro e h
    simp [cc_loop] at h
  | cons o rest ih =>
    intro e h
    simp only [cc_loop] at h
    rcases ho : o.delta with _ | d
    · rw [ho] at h
      exact ih e h
    · rw [ho] at h
      simp only at h
      split_ifs at h with hband
      · rcases hc : cc_check_liquidity o rules
        · rw [hc] at h
          exact ih e h
        · rw [hc] at h
          exact Except.noConfusion h
      · exact ih e h

/-- The covered-call loop raises exactly when some entry has a numeric delta
inside the band, `bid >= MIN_BID` and `ask > 0`. -/
theorem cc_loop_error_iff (lo hi : ℚ) (rules : WheelRules) :
    ∀ opts : List OptionEntry,
      cc_loop lo hi rules opts = .error () ↔
        ∃ o ∈ opts, ∃ d, o.delta = some d ∧ lo ≤ d ∧ d ≤ hi ∧
          rules.MIN_BID ≤ o.bid.getD 0 ∧ 0 < o.ask.getD 0 := by
  intro opts
  induction opts with
  | nil => simp [cc_loop]
  | cons o rest ih =>
    simp only [cc_loop]
    rcases ho : o.delta with _ | d
    · simp only []
      rw [ih]
      constructor
      · rintro ⟨x, hx, hrest⟩
        exact ⟨x, List.mem_cons_of_mem _ hx, hrest⟩
      · rintro ⟨x, hx, dx, hdx, hrest⟩
        rcases List.mem_cons.mp hx with h1 | h1
        · subst h1
          rw [ho] at hdx
          exact absurd hdx (by simp)
        · exact ⟨x, h1, dx, hdx, hrest⟩
    · simp only []
      by_cases hband : lo ≤ d ∧ d ≤ hi
      · rw [if_pos hband]
        cases hc : cc_check_liquidity o rules
        · rw [ih]
          constructor
          · rintro ⟨x, hx, hrest⟩
            exact ⟨x, List.mem_cons_of_mem _ hx, hrest⟩
          · rintro ⟨x, hx, dx, hdx, hb1, hb2, hb3, hb4⟩
            rcases List.mem_cons.mp hx with h1 | h1
            · subst h1
              have : cc_check_liquidity x rules = .attributeError :=
                (cc_check_liquidity_error_iff x rules).mpr ⟨hb3, hb4⟩
              rw [hc] at this
              exact absurd this (by decide)
            · exact ⟨x, h1, dx, hdx, hb1, hb2, hb3, hb4⟩
        · refine iff_of_true rfl ⟨o, List.mem_cons_self _ _, d, ho,
            hband.1, hband.2, ?_⟩
          exact (cc_check_liquidity_error_iff o rules).mp hc
      · rw [if_neg hband]
        rw [ih]
        constructor
        · rintro ⟨x, hx, hrest⟩
          exact ⟨x, List.mem_cons_of_mem _ hx, hrest⟩
        · rintro ⟨x, hx, dx, hdx, hb1, hb2, hb3, hb4⟩
          rcases List.mem_cons.mp hx with h1 | h1
          · subst h1
            rw [ho] at hdx
            have : dx = d := by exact_mod_cast Option.some_inj.mp hdx.symm
            subst this
            exact absurd ⟨hb1, hb2⟩ hband
          · exact ⟨x, h1, dx, hdx, hb1, hb2, hb3, hb4⟩

/-- `C7` (amended): `_choose_best_call_in_delta_band` raises an
`AttributeError` (stale `spread_ok` signature) exactly when some entry has a
numeric delta in the band with `bid >= MIN_BID` and `ask > 0`; otherwise it
returns `None`.  It never returns a contract, and in particular it does not
rank passing contracts at all (the unreachable sort orders by annualized
yield alone, not by a composite score). -/
theorem c7_amended_cc_selector_behavior :
    ∀ (options : List OptionEntry) (lo hi cp : ℚ) (dte : ℤ)
      (rules : WheelRules) (itm : Bool),
      (choose_best_call_in_delta_band options lo hi cp dte rules itm =
          .error () ↔
        ∃ o ∈ options, ∃ d, o.delta = some d ∧ lo ≤ d ∧ d ≤ hi ∧
          rules.MIN_BID ≤ o.bid.getD 0 ∧ 0 < o.ask.getD 0) ∧
      (∀ e, choose_best_call_in_delta_band options lo hi cp dte rules itm ≠
        .ok (some e)) := by
  intro options lo hi cp dte rules itm
  unfold choose_best_call_in_delta_band
  by_cases hend : options.isEmpty
  · rw [if_pos hend]
    have : options = [] := List.isEmpty_iff.mp hend
    subst this
    constructor
    · simp
    · intro e h
      simp at h
  · rw [if_neg hend]
    exact ⟨cc_loop_error_iff lo hi rules options,
      cc_loop_never_pick lo hi rules options⟩

/-- `C7` (counterexample): a call entry squarely inside the delta band with
a tight quote and positive strike makes the covered-call selector raise the
stale-signature `AttributeError` instead of returning any contract. -/
theorem c7_counterexample_cc_crash :
    choose_best_call_in_delta_band [wcall] 0.20 0.30 50 7 defaultRules false =
      .error () ∧
    (0.20 : ℚ) ≤ 0.25 ∧ (0.25 : ℚ) ≤ 0.30 ∧
    wcall.delta = some 0.25 ∧
    defaultRules.MIN_BID ≤ wcall.bid.getD 0 ∧ 0 < wcall.ask.getD 0 := by
  refine ⟨?_, by norm_num, by norm_num, rfl, ?_, ?_⟩
  · simp [choose_best_call_in_delta_band, cc_loop, cc_check_liquidity, wcall,
      defaultRules]
    norm_num
  · norm_num [wcall, defaultRules]
  · norm_num [wcall, defaultRules]

/-- Unpacking a successful `put_passes`. -/
theorem put_passes_parts (o : OptionEntry) (lo hi : ℚ) (dte : ℤ)
    (rules : WheelRules) (my : ℚ)
    (h : put_passes o lo hi dte rules my = true) :
    ∃ d mark strike, o.delta = some d ∧ premium_estimate o = some mark ∧
      o.strike = some strike ∧ lo ≤ |d| ∧ |d| ≤ hi ∧
      (check_liquidity o rules).1 = true ∧ 0 < mark ∧ 0 < strike ∧
      mark / strike * (365 / (dte : ℚ)) ≤ my := by
  rcases hd : o.delta with _ | d <;>
    rcases hm : premium_estimate o with _ | mark <;>
    rcases hs : o.strike with _ | strike <;>
    simp [put_passes, hd, hm, hs] at h
  refine ⟨d, mark, strike, rfl, rfl, rfl, ?_, ?_, ?_, ?_, ?_, ?_⟩ <;> tauto

/-- The fields of `put_candidate_mk` on a passing entry. -/
theorem put_candidate_mk_fields (o : OptionEntry) (lo hi : ℚ) (dte : ℤ)
    (rules : WheelRules) (my : ℚ)
    (h : put_passes o lo hi dte rules my = true) :
    (put_candidate_mk dte rules o).annualized_yield ≤ my ∧
    (put_candidate_mk dte rules o).entry = o ∧
    ∃ d, o.delta = some d ∧ (put_candidate_mk dte rules o).abs_delta = |d| ∧
      lo ≤ |d| ∧ |d| ≤ hi := by
  obtain ⟨d, mark, strike, hd, hm, hs, hlo, hhi, hliq, hmark, hstrike, hyld⟩ :=
    put_passes_parts o lo hi dte rules my h
  refine ⟨?_, rfl, d, hd, ?_, hlo, hhi⟩
  · simp only [put_candidate_mk, hm, hs, Option.getD_some]
    exact hyld
  · simp [put_candidate_mk, hd]

/-- A found expiration is strictly in the future. -/
theorem find_expiration_some_future (exps : List ℤ) (mn mx now e : ℤ)
    (h : find_expiration_in_window exps mn mx now = some e) : now < e := by
  simp only [find_expiration_in_window] at h
  have hp := List.find?_some h
  exact is_within_dte_window_future _ _ _ _ hp

/-- Evaluating `attempt_window` when an expiration is found and its puts
are non-empty. -/
theorem attempt_window_eq_of_find (mn mx : ℤ)
    (chain : List (ℤ × List OptionEntry)) (exps : List ℤ)
    (rules : WheelRules) (now : ℤ) (my : ℚ) (exp : ℤ)
    (hfind : find_expiration_in_window exps mn mx now = some exp)
    (hp : (extract_put_options_for_exp chain exp).isEmpty = false) :
    attempt_window mn mx chain exps rules now my =
      (choose_best_put_in_delta_band (extract_put_options_for_exp chain exp)
        rules.CSP_DELTA_MIN rules.CSP_DELTA_MAX (exp - now) rules my,
       some exp,
       count_put_contracts_diagnostics (extract_put_options_for_exp chain exp)
         rules.CSP_DELTA_MIN rules.CSP_DELTA_MAX rules) := by
  simp only [attempt_window, hfind]
  rw [if_neg (by simp [hp])]

/-- When `attempt_window` finds a best contract: the expiration came from
`find_expiration_in_window` and the contract from
`_choose_best_put_in_delta_band` on that expiration's puts. -/
theorem attempt_window_best (mn mx : ℤ) (chain : List (ℤ × List OptionEntry))
    (exps : List ℤ) (rules : WheelRules) (now : ℤ) (my : ℚ)
    (b : PutCandidate)
    (h : (attempt_window mn mx chain exps rules now my).1 = some b) :
    ∃ exp, (attempt_window mn mx chain exps rules now my).2.1 = some exp ∧
      find_expiration_in_window exps mn mx now = some exp ∧
      choose_best_put_in_delta_band (extract_put_options_for_exp chain exp)
        rules.CSP_DELTA_MIN rules.CSP_DELTA_MAX (exp - now) rules my =
        some b := by
  rcases hfind : find_expiration_in_window exps mn mx now with _ | exp
  · simp only [attempt_window, hfind] at h
    exact absurd h (by simp)
  · by_cases hp : (extract_put_options_for_exp chain exp).isEmpty = true
    · simp only [attempt_window, hfind, if_pos hp] at h
      exact absurd h (by simp)
    · have ha := attempt_window_eq_of_find mn mx chain exps rules now my exp
        hfind (by simpa using hp)
      rw [ha] at h
      exact ⟨exp, by rw [ha], rfl, h⟩

/-- The contract of a window choice always comes from
`_choose_best_put_in_delta_band` on its expiration's puts, and its
expiration is strictly in the future. -/
theorem csp_select_window_best (chain : List (ℤ × List OptionEntry))
    (exps : List ℤ) (rules : WheelRules) (now : ℤ) (my : ℚ)
    (ub : ℚ) (bd : UnderlyingBreakdown) (fs : Option ℚ) (qf : Bool)
    (w : WindowChoice)
    (h : csp_select_window chain exps rules now my ub bd fs qf = some w) :
    now < w.exp ∧
    choose_best_put_in_delta_band (extract_put_options_for_exp chain w.exp)
      rules.CSP_DELTA_MIN rules.CSP_DELTA_MAX (w.exp - now) rules my =
      some w.best := by
  -- helper closing the fallback-window cases
  have hfb : ∀ bf expF,
      (attempt_window rules.DTE_MIN_FALLBACK rules.DTE_MAX_FALLBACK chain exps
        rules now my).1 = some bf →
      (attempt_window rules.DTE_MIN_FALLBACK rules.DTE_MAX_FALLBACK chain exps
        rules now my).2.1 = some expF →
      w = ⟨bf, expF, .fallback⟩ →
      now < w.exp ∧
      choose_best_put_in_delta_band (extract_put_options_for_exp chain w.exp)
        rules.CSP_DELTA_MIN rules.CSP_DELTA_MAX (w.exp - now) rules my =
        some w.best := by
    intro bf expF hf1 hf2 hw
    obtain ⟨exp', hexp', hfind', hchoose'⟩ :=
      attempt_window_best _ _ _ _ _ _ _ _ hf1
    rw [hexp'] at hf2
    have hpe : exp' = expF := Option.some_inj.mp hf2
    subst hpe
    subst hw
    exact ⟨find_expiration_some_future _ _ _ _ _ hfind', hchoose'⟩
  have hpr : ∀ bp expP,
      (attempt_window rules.DTE_MIN_PRIMARY rules.DTE_MAX_PRIMARY chain exps
        rules now my).1 = some bp →
      (attempt_window rules.DTE_MIN_PRIMARY rules.DTE_MAX_PRIMARY chain exps
        rules now my).2.1 = some expP →
      w = ⟨bp, expP, .primary⟩ →
      now < w.exp ∧
      choose_best_put_in_delta_band (extract_put_options_for_exp chain w.exp)
        rules.CSP_DELTA_MIN rules.CSP_DELTA_MAX (w.exp - now) rules my =
        some w.best := by
    intro bp expP hp1 hp2 hw
    obtain ⟨exp', hexp', hfind', hchoose'⟩ :=
      attempt_window_best _ _ _ _ _ _ _ _ hp1
    rw [hexp'] at hp2
    have hpe : exp' = expP := Option.some_inj.mp hp2
    subst hpe
    subst hw
    exact ⟨find_expiration_some_future _ _ _ _ _ hfind', hchoose'⟩
  -- the fallback-only else branch of the selection
  have hfbonly : ∀ (cond : Prop) [Decidable cond],
      (if cond then
        (match (attempt_window rules.DTE_MIN_FALLBACK rules.DTE_MAX_FALLBACK
            chain exps rules now my).1,
          (attempt_window rules.DTE_MIN_FALLBACK rules.DTE_MAX_FALLBACK chain
            exps rules now my).2.1 with
         | some bf, some expF => some (⟨bf, expF, .fallback⟩ : WindowChoice)
         | _, _ => none)
       else none) = some w →
      now < w.exp ∧
      choose_best_put_in_delta_band (extract_put_options_for_exp chain w.exp)
        rules.CSP_DELTA_MIN rules.CSP_DELTA_MAX (w.exp - now) rules my =
        some w.best := by
    intro cond hdec hh
    split_ifs at hh with hcond
    · rcases hf1 : (attempt_window rules.DTE_MIN_FALLBACK
          rules.DTE_MAX_FALLBACK chain exps rules now my).1 with _ | bf
      · rw [hf1] at hh
        exact absurd hh (by simp)
      · rcases hf2 : (attempt_window rules.DTE_MIN_FALLBACK
            rules.DTE_MAX_FALLBACK chain exps rules now my).2.1 with _ | expF
        · rw [hf1, hf2] at hh
          exact absurd hh (by simp)
        · rw [hf1, hf2] at hh
          simp only at hh
          exact hfb bf expF hf1 hf2 (Option.some_inj.mp hh).symm
  simp only [csp_select_window] at h
  rcases hp1 : (attempt_window rules.DTE_MIN_PRIMARY rules.DTE_MAX_PRIMARY
      chain exps rules now my).1 with _ | bp
  · rw [hp1] at h
    exact hfbonly _ h
  · rcases hp2 : (attempt_window rules.DTE_MIN_PRIMARY rules.DTE_MAX_PRIMARY
        chain exps rules now my).2.1 with _ | expP
    · rw [hp1, hp2] at h
      exact hfbonly _ h
    · rw [hp1, hp2] at h
      simp only at h
      split_ifs at h with hallow
      · rcases hf1 : (attempt_window rules.DTE_MIN_FALLBACK
            rules.DTE_MAX_FALLBACK chain exps rules now my).1 with _ | bf
        · rw [hf1] at h
          simp only at h
          exact hpr bp expP hp1 hp2 (Option.some_inj.mp h).symm
        · rcases hf2 : (attempt_window rules.DTE_MIN_FALLBACK
              rules.DTE_MAX_FALLBACK chain exps rules now my).2.1 with _ | expF
          · rw [hf1, hf2] at h
            simp only at h
            exact hpr bp expP hp1 hp2 (Option.some_inj.mp h).symm
          · rw [hf1, hf2] at h
            simp only at h
            split_ifs at h
            · exact hfb bf expF hf1 hf2 (Option.some_inj.mp h).symm
            · exact hpr bp expP hp1 hp2 (Option.some_inj.mp h).symm
      · exact hpr bp expP hp1 hp2 (Option.some_inj.mp h).symm

/-- Unpacking a successful `build_pick_for_candidate`. -/
theorem build_pick_some_facts (c : ScreeningCandidate) (rules : WheelRules)
    (now : ℤ) (my : ℚ) (qf : Bool) (p : PickRow)
    (h : build_pick_for_candidate c rules now my qf = some p) :
    earnings_blocked c rules = false ∧
    ∃ w : WindowChoice,
      csp_select_window c.chain (parse_expirations_from_chain c.chain) rules
        now my c.underlying_bonus c.breakdown c.fund_score qf = some w ∧
      p.ticker = c.ticker ∧ p.expiration = w.exp ∧ p.dte = w.exp - now ∧
      p.annualized_yield = w.best.annualized_yield ∧
      p.delta = w.best.entry.delta ∧ p.target_delta = w.best.abs_delta ∧
      p.total_score = candidate_total_score w.best c.underlying_bonus
        c.breakdown c.fund_score qf ∧
      p.required_cash_net = w.best.entry.strike.getD 0 * 100 -
        w.best.entry.bid.getD 0 * 100 ∧
      p.earn_in_days = resolve_earnings_in_days c := by
  simp only [build_pick_for_candidate] at h
  by_cases hearn : earnings_blocked c rules = true
  · rw [if_pos hearn] at h
    exact absurd h (by simp)
  · rw [if_neg hearn] at h
    by_cases hchain : c.chain.isEmpty = true
    · rw [if_pos hchain] at h
      exact absurd h (by simp)
    · rw [if_neg hchain] at h
      by_cases hexps : (parse_expirations_from_chain c.chain).isEmpty = true
      · rw [if_pos hexps] at h
        exact absurd h (by simp)
      · rw [if_neg hexps] at h
        rcases hsel : csp_select_window c.chain
            (parse_expirations_from_chain c.chain) rules now my
            c.underlying_bonus c.breakdown c.fund_score qf with _ | w
        · rw [hsel] at h
          exact absurd h (by simp)
        · rw [hsel] at h
          simp only at h
          have hp : p = _ := (Option.some_inj.mp h).symm
          subst hp
          refine ⟨by simpa using hearn, w, rfl, rfl, rfl, rfl, rfl, rfl, rfl,
            rfl, ?_, rfl⟩
          ring

/-- Every pick emitted by the candidate loop either was already in the
accumulator or originates from a candidate via
`build_pick_for_candidate`. -/
theorem build_csp_picks_loop_mem (rules : WheelRules) (now : ℤ) (my : ℚ)
    (qf : Bool) (target : ℕ) :
    ∀ (cands : List ScreeningCandidate) (seen : List (List Char))
      (picks0 : List PickRow) (p : PickRow),
      p ∈ build_csp_picks_loop rules now my qf target cands seen picks0 →
      p ∈ picks0 ∨
        ∃ c ∈ cands, build_pick_for_candidate c rules now my qf = some p := by
  intro cands
  induction cands with
  | nil =>
    intro seen picks0 p h
    exact Or.inl h
  | cons c rest ih =>
    intro seen picks0 p h
    rw [build_csp_picks_loop] at h
    split_ifs at h with htarget hticker
    · exact Or.inl h
    · rcases ih seen picks0 p h with h1 | ⟨c', hc', h2⟩
      · exact Or.inl h1
      · exact Or.inr ⟨c', List.mem_cons_of_mem _ hc', h2⟩
    · rcases hbuild : build_pick_for_candidate c rules now my qf with _ | pick
      · rw [hbuild] at h
        simp only [] at h
        rcases ih seen picks0 p h with h1 | ⟨c', hc', h2⟩
        · exact Or.inl h1
        · exact Or.inr ⟨c', List.mem_cons_of_mem _ hc', h2⟩
      · rw [hbuild] at h
        simp only [] at h
        split_ifs at h with hseen
        · rcases ih seen picks0 p h with h1 | ⟨c', hc', h2⟩
          · exact Or.inl h1
          · exact Or.inr ⟨c', List.mem_cons_of_mem _ hc', h2⟩
        · rcases ih _ _ p h with h1 | ⟨c', hc', h2⟩
          · rcases List.mem_append.mp h1 with h3 | h3
            · exact Or.inl h3
            · have : p = pick := by simpa using h3
              subst this
              exact Or.inr ⟨c, List.mem_cons_self _ _, hbuild⟩
          · exact Or.inr ⟨c', List.mem_cons_of_mem _ hc', h2⟩

/-- Every generated pick row originates from a scanned candidate. -/
theorem build_csp_picks_mem (cands : List ScreeningCandidate)
    (rules : WheelRules) (now : ℤ) (my : ℚ) (qf : Bool) (target : ℕ)
    (p : PickRow) (h : p ∈ build_csp_picks cands rules now my qf target) :
    ∃ c ∈ cands, build_pick_for_candidate c rules now my qf = some p := by
  rcases build_csp_picks_loop_mem rules now my qf target cands [] [] p h with
    h1 | h1
  · exact absurd h1 (List.not_mem_nil p)
  · exact h1

/-- `C10`: every generated CSP pick has `annualized_yield` at most
`MAX_ANNUALIZED_YIELD`; contracts whose computed annualized yield exceeds
the cap are rejected during contract selection and never reach a pick
row. -/
theorem c10_annualized_yield_cap (cands : List ScreeningCandidate)
    (rules : WheelRules) (now : ℤ) (max_annualized_yield : ℚ) (qf : Bool)
    (target : ℕ) (p : PickRow)
    (hp : p ∈ build_csp_picks cands rules now max_annualized_yield qf target) :
    p.annualized_yield ≤ max_annualized_yield := by
  obtain ⟨c, -, hbuild⟩ :=
    build_csp_picks_mem cands rules now max_annualized_yield qf target p hp
  obtain ⟨-, w, hsel, -, -, -, hyld, -⟩ :=
    build_pick_some_facts c rules now max_annualized_yield qf p hbuild
  obtain ⟨-, hchoose⟩ := csp_select_window_best _ _ _ _ _ _ _ _ _ _ hsel
  obtain ⟨-, hpass, hmk⟩ := choose_best_put_some_mk _ _ _ _ _ _ _ hchoose
  obtain ⟨hcap, -, -⟩ := put_candidate_mk_fields _ _ _ _ _ _ hpass
  rw [hyld, hmk]
  exact hcap

/-- `C5`: delta is a risk-band filter: every CSP pick's delta is numeric
with `abs(delta)` inside `[CSP_DELTA_MIN, CSP_DELTA_MAX]` (and
`target_delta` stores that absolute delta); any covered-call contract the
CC selector could return would likewise have a numeric delta inside
`[CC_DELTA_MIN, CC_DELTA_MAX]` (in fact it returns none at all); entries
with a missing or non-numeric delta are never selected. -/
theorem c5_delta_band_filter :
    (∀ (cands : List ScreeningCandidate) (rules : WheelRules) (now : ℤ)
      (my : ℚ) (qf : Bool) (target : ℕ) (p : PickRow),
      p ∈ build_csp_picks cands rules now my qf target →
      ∃ d, p.delta = some d ∧ rules.CSP_DELTA_MIN ≤ |d| ∧
        |d| ≤ rules.CSP_DELTA_MAX ∧ p.target_delta = |d|) ∧
    (∀ (options : List OptionEntry) (lo hi cp : ℚ) (dte : ℤ)
      (rules : WheelRules) (itm : Bool) (e : OptionEntry),
      choose_best_call_in_delta_band options lo hi cp dte rules itm =
        .ok (some e) →
      ∃ d, e.delta = some d ∧ lo ≤ d ∧ d ≤ hi) := by
  constructor
  · intro cands rules now my qf target p hp
    obtain ⟨c, -, hbuild⟩ := build_csp_picks_mem cands rules now my qf target p hp
    obtain ⟨-, w, hsel, -, -, -, -, hdelta, htarget, -⟩ :=
      build_pick_some_facts c rules now my qf p hbuild
    obtain ⟨-, hchoose⟩ := csp_select_window_best _ _ _ _ _ _ _ _ _ _ hsel
    obtain ⟨-, hpass, hmk⟩ := choose_best_put_some_mk _ _ _ _ _ _ _ hchoose
    obtain ⟨-, -, d, hd, habs, hlo, hhi⟩ :=
      put_candidate_mk_fields _ _ _ _ _ _ hpass
    refine ⟨d, ?_, hlo, hhi, ?_⟩
    · rw [hdelta, hd]
    · rw [htarget, hmk, habs]
  · intro options lo hi cp dte rules itm e h
    unfold choose_best_call_in_delta_band at h
    by_cases hend : options.isEmpty
    · rw [if_pos hend] at h
      simp at h
    · rw [if_neg hend] at h
      exact absurd h (cc_loop_never_pick lo hi rules options e)

/-- `C6`: the earnings-exclusion gate: a candidate whose resolved
`earnings_in_days` is a known number at most `EARNINGS_AVOID_DAYS` produces
no pick; candidates with unknown earnings are not excluded on earnings
grounds; and `earnings_ok` holds exactly when the earnings date is `None`,
strictly before `now`, or more than `avoid_days` days after `now`. -/
theorem c6_earnings_exclusion :
    (∀ (c : ScreeningCandidate) (rules : WheelRules) (now : ℤ) (my : ℚ)
      (qf : Bool) (v : ℚ),
      resolve_earnings_in_days c = some v →
      v ≤ (rules.EARNINGS_AVOID_DAYS : ℚ) →
      build_pick_for_candidate c rules now my qf = none) ∧
    (∀ (c : ScreeningCandidate) (rules : WheelRules),
      resolve_earnings_in_days c = none → earnings_blocked c rules = false) ∧
    (∀ (cands : List ScreeningCandidate) (rules : WheelRules) (now : ℤ)
      (my : ℚ) (qf : Bool) (target : ℕ) (p : PickRow),
      p ∈ build_csp_picks cands rules now my qf target →
      ∃ c ∈ cands, earnings_blocked c rules = false ∧
        build_pick_for_candidate c rules now my qf = some p) ∧
    (∀ (ed : Option ℤ) (now avoid : ℤ),
      earnings_ok ed now (some avoid) = true ↔
        (ed = none ∨ ∃ e, ed = some e ∧ (e < now ∨ avoid < e - now))) := by
  refine ⟨?_, ?_, ?_, ?_⟩
  · intro c rules now my qf v hres hle
    have hblocked : earnings_blocked c rules = true := by
      simp [earnings_blocked, hres, hle]
    simp [build_pick_for_candidate, hblocked]
  · intro c rules hres
    simp [earnings_blocked, hres]
  · intro cands rules now my qf target p hp
    obtain ⟨c, hc, hbuild⟩ := build_csp_picks_mem cands rules now my qf target p hp
    obtain ⟨hearn, -⟩ := build_pick_some_facts c rules now my qf p hbuild
    exact ⟨c, hc, hearn, hbuild⟩
  · intro ed now avoid
    rcases ed with _ | e
    · simp [earnings_ok]
    · simp only [earnings_ok, Option.getD_some]
      split_ifs with hpast
      · exact iff_of_true rfl (Or.inr ⟨e, rfl, Or.inl hpast⟩)
      · rw [decide_eq_true_iff]
        constructor
        · intro h
          exact Or.inr ⟨e, rfl, Or.inr h⟩
        · rintro (hnone | ⟨e', he', hlt | hgt⟩)
          · exact absurd hnone (by simp)
          · have : e' = e := (Option.some_inj.mp he').symm
            subst this
            exact absurd hlt hpast
          · have : e' = e := (Option.some_inj.mp he').symm
            subst this
            exact hgt

/-- `C2` (amended): in `build_cc_picks` the fallback DTE window is consulted
only when the primary window yields no expiration (and fallback is
allowed); in `build_csp_picks`, however, a pick may use the fallback window
even when the primary window yields a valid contract: whenever
`ALLOW_FALLBACK_DTE` is set the fallback window is also evaluated and wins
exactly when its contract's `total_score` is strictly higher — conjunct 1
gives the "only if" (a fallback choice implies no primary contract or a
strictly lower primary score), conjunct 3 the "if" (with both windows
yielding a contract, the selection is fallback when its score is strictly
higher and primary otherwise) — and with fallback disabled the primary
contract is always used. -/
theorem c2_amended_fallback_policy :
    (∀ (chain : List (ℤ × List OptionEntry)) (exps : List ℤ)
      (rules : WheelRules) (now : ℤ) (my ub : ℚ) (bd : UnderlyingBreakdown)
      (fs : Option ℚ) (qf : Bool) (w : WindowChoice),
      csp_select_window chain exps rules now my ub bd fs qf = some w →
      w.window = .fallback →
      rules.ALLOW_FALLBACK_DTE = true ∧
        ((attempt_window rules.DTE_MIN_PRIMARY rules.DTE_MAX_PRIMARY chain
            exps rules now my).1 = none ∨
         ∃ bp, (attempt_window rules.DTE_MIN_PRIMARY rules.DTE_MAX_PRIMARY
             chain exps rules now my).1 = some bp ∧
           (candidate_total_score bp ub bd fs qf).ltB
             (candidate_total_score w.best ub bd fs qf) = true)) ∧
    (∀ (chain : List (ℤ × List OptionEntry)) (exps : List ℤ)
      (rules : WheelRules) (now : ℤ) (my ub : ℚ) (bd : UnderlyingBreakdown)
      (fs : Option ℚ) (qf : Bool) (bp : PutCandidate) (expP : ℤ),
      (attempt_window rules.DTE_MIN_PRIMARY rules.DTE_MAX_PRIMARY chain exps
        rules now my).1 = some bp →
      (attempt_window rules.DTE_MIN_PRIMARY rules.DTE_MAX_PRIMARY chain exps
        rules now my).2.1 = some expP →
      rules.ALLOW_FALLBACK_DTE = false →
      csp_select_window chain exps rules now my ub bd fs qf =
        some ⟨bp, expP, .primary⟩) ∧
    (∀ (chain : List (ℤ × List OptionEntry)) (exps : List ℤ)
      (rules : WheelRules) (now : ℤ) (my ub : ℚ) (bd : UnderlyingBreakdown)
      (fs : Option ℚ) (qf : Bool) (bp bf : PutCandidate) (expP expF : ℤ),
      (attempt_window rules.DTE_MIN_PRIMARY rules.DTE_MAX_PRIMARY chain exps
        rules now my).1 = some bp →
      (attempt_window rules.DTE_MIN_PRIMARY rules.DTE_MAX_PRIMARY chain exps
        rules now my).2.1 = some expP →
      (attempt_window rules.DTE_MIN_FALLBACK rules.DTE_MAX_FALLBACK chain exps
        rules now my).1 = some bf →
      (attempt_window rules.DTE_MIN_FALLBACK rules.DTE_MAX_FALLBACK chain exps
        rules now my).2.1 = some expF →
      rules.ALLOW_FALLBACK_DTE = true →
      csp_select_window chain exps rules now my ub bd fs qf =
        some (if (candidate_total_score bp ub bd fs qf).ltB
            (candidate_total_score bf ub bd fs qf) = true
          then (⟨bf, expF, .fallback⟩ : WindowChoice)
          else ⟨bp, expP, .primary⟩)) ∧
    (∀ (exps : List ℤ) (rules : WheelRules) (now e : ℤ),
      pick_expiration_with_fallback exps rules now = some (e, .fallback) →
      find_expiration_in_window exps rules.DTE_MIN_PRIMARY
        rules.DTE_MAX_PRIMARY now = none ∧
      rules.ALLOW_FALLBACK_DTE = true) := by
  refine ⟨?_, ?_, ?_, ?_⟩
  · intro chain exps rules now my ub bd fs qf w h hw
    -- the fallback-only else branch always has `ALLOW_FALLBACK_DTE` set
    have hfbonly : ∀ (cond : Prop) [Decidable cond],
        (cond → rules.ALLOW_FALLBACK_DTE = true) →
        (if cond then
          (match (attempt_window rules.DTE_MIN_FALLBACK rules.DTE_MAX_FALLBACK
              chain exps rules now my).1,
            (attempt_window rules.DTE_MIN_FALLBACK rules.DTE_MAX_FALLBACK
              chain exps rules now my).2.1 with
           | some bf, some expF => some (⟨bf, expF, .fallback⟩ : WindowChoice)
           | _, _ => none)
         else none) = some w →
        rules.ALLOW_FALLBACK_DTE = true := by
      intro cond hdec hcond hh
      split_ifs at hh with hc
      exact hcond hc
    simp only [csp_select_window] at h
    rcases hp1 : (attempt_window rules.DTE_MIN_PRIMARY rules.DTE_MAX_PRIMARY
        chain exps rules now my).1 with _ | bp
    · rw [hp1] at h
      exact ⟨hfbonly _ (fun hc => hc.1) h, Or.inl rfl⟩
    · rcases hp2 : (attempt_window rules.DTE_MIN_PRIMARY
          rules.DTE_MAX_PRIMARY chain exps rules now my).2.1 with _ | expP
      · obtain ⟨exp', hexp', -, -⟩ := attempt_window_best _ _ _ _ _ _ _ _ hp1
        rw [hexp'] at hp2
        exact absurd hp2 (by simp)
      · rw [hp1, hp2] at h
        simp only at h
        split_ifs at h with hallow
        · rcases hf1 : (attempt_window rules.DTE_MIN_FALLBACK
              rules.DTE_MAX_FALLBACK chain exps rules now my).1 with _ | bf
          · rw [hf1] at h
            simp only at h
            have hwp : w = ⟨bp, expP, .primary⟩ := (Option.some_inj.mp h).symm
            rw [hwp] at hw
            simp at hw
          · rcases hf2 : (attempt_window rules.DTE_MIN_FALLBACK
                rules.DTE_MAX_FALLBACK chain exps rules now my).2.1
              with _ | expF
            · rw [hf1, hf2] at h
              simp only at h
              have hwp : w = ⟨bp, expP, .primary⟩ :=
                (Option.some_inj.mp h).symm
              rw [hwp] at hw
              simp at hw
            · rw [hf1, hf2] at h
              simp only at h
              split_ifs at h with hcmp
              · have hwp : w = ⟨bf, expF, .fallback⟩ :=
                  (Option.some_inj.mp h).symm
                refine ⟨hallow, Or.inr ⟨bp, rfl, ?_⟩⟩
                rw [hwp]
                exact hcmp
              · have hwp : w = ⟨bp, expP, .primary⟩ :=
                  (Option.some_inj.mp h).symm
                rw [hwp] at hw
                simp at hw
        · have hwp : w = ⟨bp, expP, .primary⟩ := (Option.some_inj.mp h).symm
          rw [hwp] at hw
          simp at hw
  · intro chain exps rules now my ub bd fs qf bp expP hp1 hp2 hallow
    simp only [csp_select_window]
    rw [hp1, hp2]
    simp only
    rw [if_neg (by simp [hallow])]
  · intro chain exps rules now my ub bd fs qf bp bf expP expF hp1 hp2 hf1 hf2
      hallow
    simp only [csp_select_window]
    rw [hp1, hp2]
    simp only
    rw [if_pos hallow, hf1, hf2]
    simp only
    by_cases hcmp : (candidate_total_score bp ub bd fs qf).ltB
        (candidate_total_score bf ub bd fs qf) = true
    · rw [if_pos hcmp, if_pos hcmp]
    · rw [if_neg hcmp, if_neg hcmp]
  · intro exps rules now e h
    simp only [pick_expiration_with_fallback] at h
    rcases hfind : find_expiration_in_window exps rules.DTE_MIN_PRIMARY
        rules.DTE_MAX_PRIMARY now with _ | exp
    · rw [hfind] at h
      simp only at h
      split_ifs at h with hallow
      · exact ⟨rfl, hallow⟩
    · rw [hfind] at h
      simp only at h
      have := (Prod.mk.injEq _ _ _ _).mp (Option.some_inj.mp h)
      exact absurd this.2 (by decide)

/-- Invariants of the greedy budget fold of the portfolio selection: the
running total is the sum of the selected `required_cash_net`s, stays within
`allocatable_cash`, the selection count stays within `max_trades`, every
selected pick fits the per-trade cap, and every selected pick comes from the
initial state or the scanned list. -/
theorem select_fold_facts (allocatable_cash max_cash_per_trade : ℚ)
    (max_trades : ℕ) :
    ∀ (l : List PickRow) (st : List PickRow × ℚ),
    st.2 = (st.1.map PickRow.required_cash_net).sum →
    st.2 ≤ allocatable_cash →
    st.1.length ≤ max_trades →
    (∀ p ∈ st.1, p.required_cash_net ≤ max_cash_per_trade) →
    ((l.foldl
        (fun (st : List PickRow × ℚ) p =>
          if max_trades ≤ st.1.length then st
          else if max_cash_per_trade < p.required_cash_net then st
          else if st.2 + p.required_cash_net ≤ allocatable_cash then
            (st.1 ++ [p], st.2 + p.required_cash_net)
          else st) st).2 =
      ((l.foldl
        (fun (st : List PickRow × ℚ) p =>
          if max_trades ≤ st.1.length then st
          else if max_cash_per_trade < p.required_cash_net then st
          else if st.2 + p.required_cash_net ≤ allocatable_cash then
            (st.1 ++ [p], st.2 + p.required_cash_net)
          else st) st).1.map PickRow.required_cash_net).sum) ∧
    ((l.foldl
        (fun (st : List PickRow × ℚ) p =>
          if max_trades ≤ st.1.length then st
          else if max_cash_per_trade < p.required_cash_net then st
          else if st.2 + p.required_cash_net ≤ allocatable_cash then
            (st.1 ++ [p], st.2 + p.required_cash_net)
          else st) st).2 ≤ allocatable_cash) ∧
    ((l.foldl
        (fun (st : List PickRow × ℚ) p =>
          if max_trades ≤ st.1.length then st
          else if max_cash_per_trade < p.required_cash_net then st
          else if st.2 + p.required_cash_net ≤ allocatable_cash then
            (st.1 ++ [p], st.2 + p.required_cash_net)
          else st) st).1.length ≤ max_trades) ∧
    (∀ p ∈ (l.foldl
        (fun (st : List PickRow × ℚ) p =>
          if max_trades ≤ st.1.length then st
          else if max_cash_per_trade < p.required_cash_net then st
          else if st.2 + p.required_cash_net ≤ allocatable_cash then
            (st.1 ++ [p], st.2 + p.required_cash_net)
          else st) st).1,
      p.required_cash_net ≤ max_cash_per_trade) ∧
    (∀ p ∈ (l.foldl
        (fun (st : List PickRow × ℚ) p =>
          if max_trades ≤ st.1.length then st
          else if max_cash_per_trade < p.required_cash_net then st
          else if st.2 + p.required_cash_net ≤ allocatable_cash then
            (st.1 ++ [p], st.2 + p.required_cash_net)
          else st) st).1,
      p ∈ st.1 ∨ p ∈ l) := by
  intro l
  induction l with
  | nil =>
    intro st hsum hle hlen hper
    refine ⟨hsum, hle, hlen, hper, ?_⟩
    intro p hp
    exact Or.inl hp
  | cons q rest ih =>
    intro st hsum hle hlen hper
    rw [List.foldl_cons]
    by_cases h1 : max_trades ≤ st.1.length
    · rw [if_pos h1]
      obtain ⟨a, b, c, d, e⟩ := ih st hsum hle hlen hper
      refine ⟨a, b, c, d, ?_⟩
      intro p hp
      rcases e p hp with h | h
      · exact Or.inl h
      · exact Or.inr (List.mem_cons_of_mem _ h)
    · rw [if_neg h1]
      by_cases h2 : max_cash_per_trade < q.required_cash_net
      · rw [if_pos h2]
        obtain ⟨a, b, c, d, e⟩ := ih st hsum hle hlen hper
        refine ⟨a, b, c, d, ?_⟩
        intro p hp
        rcases e p hp with h | h
        · exact Or.inl h
        · exact Or.inr (List.mem_cons_of_mem _ h)
      · rw [if_neg h2]
        by_cases h3 : st.2 + q.required_cash_net ≤ allocatable_cash
        · rw [if_pos h3]
          have hsum' : (st.1 ++ [q], st.2 + q.required_cash_net).2 =
              (((st.1 ++ [q], st.2 + q.required_cash_net).1.map
                PickRow.required_cash_net).sum) := by
            simp [hsum]
          have hle' : (st.1 ++ [q], st.2 + q.required_cash_net).2 ≤
              allocatable_cash := h3
          have hlen' : (st.1 ++ [q], st.2 + q.required_cash_net).1.length ≤
              max_trades := by
            simp only [List.length_append, List.length_singleton]
            omega
          have hper' : ∀ p ∈ (st.1 ++ [q], st.2 + q.required_cash_net).1,
              p.required_cash_net ≤ max_cash_per_trade := by
            intro p hp
            rcases List.mem_append.mp hp with h | h
            · exact hper p h
            · rw [List.mem_singleton.mp h]
              exact le_of_not_lt h2
          obtain ⟨a, b, c, d, e⟩ := ih _ hsum' hle' hlen' hper'
          refine ⟨a, b, c, d, ?_⟩
          intro p hp
          rcases e p hp with h | h
          · rcases List.mem_append.mp h with h' | h'
            · exact Or.inl h'
            · exact Or.inr (List.mem_cons.mpr (Or.inl (List.mem_singleton.mp h')))
          · exact Or.inr (List.mem_cons_of_mem _ h)
        · rw [if_neg h3]
          obtain ⟨a, b, c, d, e⟩ := ih st hsum hle hlen hper
          refine ⟨a, b, c, d, ?_⟩
          intro p hp
          rcases e p hp with h | h
          · exact Or.inl h
          · exact Or.inr (List.mem_cons_of_mem _ h)

/-- `C4`: the selected portfolio respects every budget constraint at once:
at most `max_trades` picks, total `required_cash_net` within
`allocatable_cash`, each pick within the per-trade cash cap, each selected
pick drawn from the input picks, and (unless negative selection is allowed)
each selected pick's `total_score` at least `min_total_score`. -/
theorem c4_portfolio_budget_constraints (picks : List PickRow)
    (allocatable_cash max_cash_per_trade min_total_score : ℚ)
    (max_trades : ℕ) (allow_negative : Bool)
    (halloc : 0 ≤ allocatable_cash) :
    ((select_portfolio picks allocatable_cash max_cash_per_trade
        min_total_score max_trades allow_negative).length ≤ max_trades) ∧
    (((select_portfolio picks allocatable_cash max_cash_per_trade
        min_total_score max_trades allow_negative).map
        PickRow.required_cash_net).sum ≤ allocatable_cash) ∧
    (∀ p ∈ select_portfolio picks allocatable_cash max_cash_per_trade
        min_total_score max_trades allow_negative,
      p.required_cash_net ≤ max_cash_per_trade) ∧
    (∀ p ∈ select_portfolio picks allocatable_cash max_cash_per_trade
        min_total_score max_trades allow_negative, p ∈ picks) ∧
    (allow_negative = false →
      ∀ p ∈ select_portfolio picks allocatable_cash max_cash_per_trade
          min_total_score max_trades allow_negative,
        0 < p.total_score.c → 0 < p.total_score.a →
          min_total_score ≤ p.total_score.val) := by
  simp only [select_portfolio]
  obtain ⟨hsum, hle, hlen, hper, hmem⟩ := select_fold_facts allocatable_cash
    max_cash_per_trade max_trades
    (if allow_negative then picks.insertionSort
        (fun a b => a.total_score.ltB b.total_score = false)
      else (picks.insertionSort
        (fun a b => a.total_score.ltB b.total_score = false)).filter
        (fun p => p.total_score.ltB ⟨min_total_score, 0, 1⟩ = false))
    ([], 0) rfl halloc (Nat.zero_le _) (by intro p hp; exact absurd hp (List.not_mem_nil p))
  have hsorted_mem : ∀ p, p ∈ picks.insertionSort
      (fun a b => a.total_score.ltB b.total_score = false) → p ∈ picks := by
    intro p hp
    exact (List.perm_insertionSort _ _).mem_iff.mp hp
  have helig : ∀ p, p ∈ (if allow_negative then picks.insertionSort
        (fun a b => a.total_score.ltB b.total_score = false)
      else (picks.insertionSort
        (fun a b => a.total_score.ltB b.total_score = false)).filter
        (fun p => p.total_score.ltB ⟨min_total_score, 0, 1⟩ = false)) →
      p ∈ picks := by
    intro p hp
    split_ifs at hp with hneg
    · exact hsorted_mem p hp
    · exact hsorted_mem p (List.mem_filter.mp hp).1
  refine ⟨hlen, le_of_eq_of_le hsum.symm hle, hper, ?_, ?_⟩
  · intro p hp
    rcases hmem p hp with h | h
    · exact absurd h (List.not_mem_nil p)
    · exact helig p h
  · intro hneg p hp hc ha
    rcases hmem p hp with h | h
    · exact absurd h (List.not_mem_nil p)
    · rw [if_neg (by simp [hneg])] at h
      have hfilt := (List.mem_filter.mp h).2
      have hltB : p.total_score.ltB ⟨min_total_score, 0, 1⟩ = false := by
        simpa using hfilt
      have hval := SqrtScore.ltB_iff p.total_score ⟨min_total_score, 0, 1⟩
        hc le_rfl ha (by norm_num)
      have hnlt : ¬ (p.total_score.val < SqrtScore.val ⟨min_total_score, 0, 1⟩) := by
        intro hcon
        rw [← hval] at hcon
        rw [hltB] at hcon
        exact absurd hcon (by simp)
      have hmval : SqrtScore.val ⟨min_total_score, 0, 1⟩ = min_total_score := by
        simp [SqrtScore.val]
      rw [hmval] at hnlt
      exact le_of_not_lt hnlt

set_option maxHeartbeats 4000000 in
/-- `C2` (counterexample): with the default rules, a chain holding a valid
7-day put (primary window [5,9]) and a higher-scoring 12-day put (fallback
window [10,16]) yields a primary-window contract, yet the generated pick
uses expiration 12 — the fallback window — which is outside the primary
window. -/
theorem c2_counterexample_fallback_preferred :
    ((attempt_window defaultRules.DTE_MIN_PRIMARY defaultRules.DTE_MAX_PRIMARY
        wchain (parse_expirations_from_chain wchain) defaultRules 0
        3.0).1).isSome = true ∧
    (csp_select_window wchain (parse_expirations_from_chain wchain)
        defaultRules 0 3.0 0 zeroBreakdown none false).map
      (fun w => (w.exp, w.window)) = some (12, .fallback) ∧
    is_within_dte_window 12 0 (some defaultRules.DTE_MIN_PRIMARY)
      (some defaultRules.DTE_MAX_PRIMARY) = false := by
  refine ⟨?_, ?_, ?_⟩ <;>
  norm_num [csp_select_window, attempt_window, find_expiration_in_window,
    parse_expirations_from_chain, extract_put_options_for_exp,
    count_put_contracts_diagnostics, choose_best_put_in_delta_band,
    pick_best_by_score, put_candidate_of, check_liquidity, spread_ok,
    abs_spread_cap_for_mid, premium_estimate, candidate_total_score,
    compute_total_score, liquidity_bonus_of, is_within_dte_window,
    defaultRules, wchain, wput1, wput2, zeroBreakdown, zeroDiagnostics,
    List.insertionSort, List.orderedInsert,
    List.dedup_cons_of_mem, List.dedup_cons_of_not_mem, List.dedup_nil,
    List.filter, List.find?, List.foldl, List.foldr, List.filterMap,
    abs_neg, abs_of_nonneg, SqrtScore.ltB]

/-- Dropping a prefix from the back of an already-front-trimmed list leaves
the front trimmed. -/
theorem dropWhile_reverse_dropWhile (p : Char → Bool) (m : List Char)
    (hm : m.dropWhile p = m) :
    ((m.reverse.dropWhile p).reverse).dropWhile p =
      (m.reverse.dropWhile p).reverse := by
  rcases hs2 : (m.reverse.dropWhile p).reverse with _ | ⟨c, s2⟩
  · rfl
  · have hdecomp : m = (m.reverse.dropWhile p).reverse ++
        (m.reverse.takeWhile p).reverse := by
      conv_lhs => rw [← List.reverse_reverse m,
        ← List.takeWhile_append_dropWhile (p := p) (l := m.reverse)]
      rw [List.reverse_append]
    rw [hs2] at hdecomp
    have hpc : p c = false := by
      by_contra hpc
      have hpc' : p c = true := by
        cases hpcase : p c
        · exact absurd hpcase hpc
        · rfl
      have hcontr := hm
      rw [hdecomp, List.cons_append, List.dropWhile_cons] at hcontr
      rw [if_pos hpc'] at hcontr
      have hlen := congrArg List.length hcontr
      have hle : ((s2 ++ (m.reverse.takeWhile p).reverse).dropWhile p).length ≤
          (s2 ++ (m.reverse.takeWhile p).reverse).length :=
        (List.dropWhile_suffix p).length_le
      simp only [List.length_cons] at hlen
      omega
    rw [List.dropWhile_cons, if_neg (by simp [hpc])]

/-- `strip` is idempotent. -/
theorem py_strip_idem (l : List Char) : py_strip (py_strip l) = py_strip l := by
  simp only [py_strip]
  rw [dropWhile_reverse_dropWhile py_isspace (l.dropWhile py_isspace)
    (List.dropWhile_idempotent _ _)]
  rw [List.reverse_reverse, List.dropWhile_idempotent]

/-- `strip` commutes with mapping a whitespace-preserving character map. -/
theorem py_strip_map (g : Char → Char)
    (hg : ∀ c, py_isspace (g c) = py_isspace c) (l : List Char) :
    py_strip (l.map g) = (py_strip l).map g := by
  have hcomp : (py_isspace ∘ g) = py_isspace := funext hg
  simp only [py_strip, List.dropWhile_map, hcomp, ← List.map_reverse]

/-- Facts about the ASCII case table: both letters of each pair are
non-whitespace and the uppercase letter is not a key of the table. -/
theorem upper_pairs_facts : ∀ q ∈ lower_upper_pairs,
    py_isspace q.1 = false ∧ py_isspace q.2 = false ∧
    lower_upper_pairs.find? (fun r => r.1 = q.2) = none := by decide

/-- `str.upper` is idempotent on characters. -/
theorem py_upper_char_idem (c : Char) :
    py_upper_char (py_upper_char c) = py_upper_char c := by
  rcases hf : lower_upper_pairs.find? (fun r => r.1 = c) with _ | q
  · simp only [py_upper_char, hf]
  · have hq := List.mem_of_find?_eq_some hf
    have hfacts := upper_pairs_facts q hq
    simp only [py_upper_char, hf]
    rw [hfacts.2.2]

/-- `str.upper` preserves whitespace-status of characters. -/
theorem py_isspace_upper_char (c : Char) :
    py_isspace (py_upper_char c) = py_isspace c := by
  rcases hf : lower_upper_pairs.find? (fun r => r.1 = c) with _ | q
  · simp only [py_upper_char, hf]
  · have hq := List.mem_of_find?_eq_some hf
    have hpq := List.find?_some hf
    have hc : q.1 = c := by simpa using hpq
    have hfacts := upper_pairs_facts q hq
    simp only [py_upper_char, hf]
    rw [hfacts.2.1, ← hc, hfacts.1]

/-- The slash-to-dot map preserves whitespace-status. -/
theorem py_isspace_slash_char (c : Char) :
    py_isspace (if c = '/' then '.' else c) = py_isspace c := by
  by_cases h : c = '/'
  · rw [if_pos h, h]
    decide
  · rw [if_neg h]

/-- The dash-to-dot map preserves whitespace-status. -/
theorem py_isspace_dash_char (c : Char) :
    py_isspace (if c = '-' then '.' else c) = py_isspace c := by
  by_cases h : c = '-'
  · rw [if_pos h, h]
    decide
  · rw [if_neg h]

/-- `strip` commutes with `.replace("/", ".")`. -/
theorem py_strip_replace_slash (l : List Char) :
    py_strip (replace_slash l) = replace_slash (py_strip l) := by
  simp only [replace_slash]
  exact py_strip_map _ py_isspace_slash_char l

/-- `strip` commutes with `.replace("-", ".")`. -/
theorem py_strip_replace_dash (l : List Char) :
    py_strip (replace_dash l) = replace_dash (py_strip l) := by
  simp only [replace_dash]
  exact py_strip_map _ py_isspace_dash_char l

/-- `strip` commutes with `str.upper`. -/
theorem py_strip_upper (l : List Char) :
    py_strip (py_upper l) = py_upper (py_strip l) := by
  simp only [py_upper]
  exact py_strip_map _ py_isspace_upper_char l

/-- `str.upper` is idempotent. -/
theorem py_upper_idem (l : List Char) :
    py_upper (py_upper l) = py_upper l := by
  have hcomp : (py_upper_char ∘ py_upper_char) = py_upper_char :=
    funext py_upper_char_idem
  simp only [py_upper, List.map_map, hcomp]

/-- An uppercased-then-slash-replaced string is fixed by `str.upper`. -/
theorem py_upper_fix_slash (l : List Char) :
    py_upper (replace_slash (py_upper l)) = replace_slash (py_upper l) := by
  have hpt : ∀ c, py_upper_char (if py_upper_char c = '/' then '.'
      else py_upper_char c) = (if py_upper_char c = '/' then '.'
      else py_upper_char c) := by
    intro c
    by_cases h : py_upper_char c = '/'
    · rw [if_pos h]
      decide
    · rw [if_neg h]
      exact py_upper_char_idem c
  have hcomp : (py_upper_char ∘ ((fun c => if c = '/' then '.' else c) ∘
      py_upper_char)) = ((fun c => if c = '/' then '.' else c) ∘
      py_upper_char) := funext hpt
  simp only [py_upper, replace_slash, List.map_map, hcomp]

/-- An uppercased, slash- and dash-replaced string is fixed by
`str.upper`. -/
theorem py_upper_fix_dash (l : List Char) :
    py_upper (replace_dash (replace_slash (py_upper l))) =
      replace_dash (replace_slash (py_upper l)) := by
  have hpt : ∀ c, py_upper_char ((fun c => if c = '-' then '.' else c)
      ((fun c => if c = '/' then '.' else c) (py_upper_char c))) =
      (fun c => if c = '-' then '.' else c)
      ((fun c => if c = '/' then '.' else c) (py_upper_char c)) := by
    intro c
    simp only []
    by_cases h1 : py_upper_char c = '/'
    · rw [if_pos h1, if_neg (show ¬('.' : Char) = '-' by decide)]
      decide
    · rw [if_neg h1]
      by_cases h2 : py_upper_char c = '-'
      · rw [if_pos h2]
        decide
      · rw [if_neg h2]
        exact py_upper_char_idem c
  have hcomp : (py_upper_char ∘ ((fun c => if c = '-' then '.' else c) ∘
      ((fun c => if c = '/' then '.' else c) ∘ py_upper_char))) =
      ((fun c => if c = '-' then '.' else c) ∘
      ((fun c => if c = '/' then '.' else c) ∘ py_upper_char)) := funext hpt
  simp only [py_upper, replace_slash, replace_dash, List.map_map, hcomp]

/-- `.replace("/", ".")` is idempotent. -/
theorem replace_slash_idem (l : List Char) :
    replace_slash (replace_slash l) = replace_slash l := by
  have hpt : ∀ c, (fun c => if c = '/' then '.' else c)
      ((fun c => if c = '/' then '.' else c) c) =
      (fun c => if c = '/' then '.' else c) c := by
    intro c
    simp only []
    by_cases h : c = '/'
    · rw [if_pos h, if_neg (show ¬('.' : Char) = '/' by decide)]
    · rw [if_neg h, if_neg h]
  have hcomp : ((fun c => if c = '/' then '.' else c) ∘
      (fun c => if c = '/' then '.' else c)) =
      (fun c => if c = '/' then '.' else c) := funext hpt
  simp only [replace_slash, List.map_map, hcomp]

/-- Dash replacement produces no slash, so a further slash replacement is the
identity. -/
theorem replace_slash_fix_dash (l : List Char) :
    replace_slash (replace_dash (replace_slash l)) =
      replace_dash (replace_slash l) := by
  have hpt : ∀ c, (fun c => if c = '/' then '.' else c)
      ((fun c => if c = '-' then '.' else c)
        ((fun c => if c = '/' then '.' else c) c)) =
      (fun c => if c = '-' then '.' else c)
      ((fun c => if c = '/' then '.' else c) c) := by
    intro c
    simp only []
    by_cases h1 : c = '/'
    · rw [if_pos h1]
      rw [if_neg (show ¬('.' : Char) = '-' by decide)]
      rw [if_neg (show ¬('.' : Char) = '/' by decide)]
    · rw [if_neg h1]
      by_cases h2 : c = '-'
      · rw [if_pos h2]
        rw [if_neg (show ¬('.' : Char) = '/' by decide)]
      · rw [if_neg h2]
        rw [if_neg h1]
  have hcomp : ((fun c => if c = '/' then '.' else c) ∘
      ((fun c => if c = '-' then '.' else c) ∘
        (fun c => if c = '/' then '.' else c))) =
      ((fun c => if c = '-' then '.' else c) ∘
        (fun c => if c = '/' then '.' else c)) := funext hpt
  simp only [replace_slash, replace_dash, List.map_map, hcomp]

/-- A slash-replaced string with no dot in the result had no slash to begin
with. -/
theorem replace_slash_self_of_no_dot (x : List Char)
    (h : ¬ '.' ∈ replace_slash x) : replace_slash x = x := by
  induction x with
  | nil => rfl
  | cons c cs ih =>
    simp only [replace_slash, List.map_cons] at h ⊢
    by_cases hc : c = '/'
    · exact absurd (List.mem_cons_self _ _) (by rw [if_pos hc] at h; exact h)
    · rw [if_neg hc]
      rw [if_neg hc] at h
      have htail : ¬ '.' ∈ cs.map (fun c => if c = '/' then '.' else c) :=
        fun hm => h (List.mem_cons_of_mem _ hm)
      rw [show cs.map (fun c => if c = '/' then '.' else c) =
        replace_slash cs from rfl] at htail
      have hcs := ih htail
      simp only [replace_slash] at hcs
      rw [hcs]

/-- Dash replacement leaves no dash. -/
theorem replace_dash_no_dash (l : List Char) :
    ¬ '-' ∈ replace_dash l := by
  intro hm
  simp only [replace_dash] at hm
  obtain ⟨c, -, hc⟩ := List.mem_map.mp hm
  by_cases h : c = '-'
  · rw [if_pos h] at hc
    exact absurd hc (by decide)
  · rw [if_neg h] at hc
    exact h hc

/-- A dash in the input puts a dot into the dash-replaced output. -/
theorem replace_dash_mem_dot (l : List Char) (h : '-' ∈ l) :
    '.' ∈ replace_dash l := by
  simp only [replace_dash]
  exact List.mem_map.mpr ⟨'-', h, by decide⟩

/-- A string fixed by strip-then-upper, unequal to the special-cased
symbols, fixed by slash replacement, and not dash-rewritable, is produced
unchanged by `normalize_exposure_symbol` (unless it is one of the two
non-idempotent values `BRK.A`, `BF.A`). -/
theorem normalize_fixed_of_ready (t : List Char)
    (hup : py_upper (py_strip t) = t)
    (hGOOG : t ≠ "GOOG".toList)
    (hBRKdash : t ≠ "BRK-A".toList) (hBFdash : t ≠ "BF-A".toList)
    (hslash : replace_slash t = t)
    (hdash : t.contains '-' = true →
      ¬(t.takeWhile (fun c => c ≠ '-') = "BRK".toList ∨
        t.takeWhile (fun c => c ≠ '-') = "BF".toList)) :
    normalize_exposure_symbol t = t ∨ t = "BRK.A".toList ∨
      t = "BF.A".toList := by
  by_cases hBRKA : t = "BRK.A".toList
  · exact Or.inr (Or.inl hBRKA)
  by_cases hBFA : t = "BF.A".toList
  · exact Or.inr (Or.inr hBFA)
  left
  by_cases hemp : t.isEmpty = true
  · have ht : t = [] := List.isEmpty_iff.mp hemp
    rw [ht]
    rfl
  · simp only [normalize_exposure_symbol]
    rw [if_neg hemp, hup]
    rw [if_neg hGOOG, if_neg (by tauto), if_neg (by tauto), hslash]
    by_cases hc : t.contains '-' = true
    · rw [if_pos hc, if_neg (hdash hc)]
    · rw [if_neg hc]

/-- The keys accumulated by the candidate loop keep the normalized exposure
symbols of the emitted picks pairwise distinct. -/
theorem build_csp_picks_loop_nodup (rules : WheelRules) (now : ℤ) (my : ℚ)
    (qf : Bool) (target : ℕ) :
    ∀ (cands : List ScreeningCandidate) (seen : List (List Char))
      (picks : List PickRow),
    (∀ p ∈ picks, normalize_exposure_symbol p.ticker ∈ seen) →
    (picks.map (fun p => normalize_exposure_symbol p.ticker)).Nodup →
    ((build_csp_picks_loop rules now my qf target cands seen picks).map
      (fun p => normalize_exposure_symbol p.ticker)).Nodup := by
  intro cands
  induction cands with
  | nil =>
    intro seen picks hseen hnd
    exact hnd
  | cons c rest ih =>
    intro seen picks hseen hnd
    rw [build_csp_picks_loop]
    split_ifs with htarget hticker
    · exact hnd
    · exact ih seen picks hseen hnd
    · rcases hbuild : build_pick_for_candidate c rules now my qf with _ | pick
      · exact ih seen picks hseen hnd
      · simp only []
        by_cases hseen2 : normalize_exposure_symbol c.ticker ∈ seen
        · rw [if_pos hseen2]
          exact ih seen picks hseen hnd
        · rw [if_neg hseen2]
          have hticker_eq : pick.ticker = c.ticker := by
            obtain ⟨-, w, -, hte, -⟩ :=
              build_pick_some_facts c rules now my qf pick hbuild
            exact hte
          apply ih (normalize_exposure_symbol c.ticker :: seen) (picks ++ [pick])
          · intro p hp
            rcases List.mem_append.mp hp with h | h
            · exact List.mem_cons_of_mem _ (hseen p h)
            · have hpp : p = pick := by simpa using h
              subst hpp
              rw [hticker_eq]
              exact List.mem_cons_self _ _
          · rw [List.map_append]
            refine List.Nodup.append hnd (by simp) ?_
            intro a ha hb
            have hb' : a = normalize_exposure_symbol pick.ticker := by
              simpa using hb
            obtain ⟨p, hp, hkey⟩ := List.mem_map.mp ha
            apply hseen2
            rw [← hticker_eq, ← hb', ← hkey]
            exact hseen p hp

/-- `C9` (amended): within one run of `build_csp_picks` the emitted picks
have pairwise-distinct `normalize_exposure_symbol` keys (at most one pick
per economic exposure); `normalize_exposure_symbol`, however, is not
idempotent in general: applying it twice equals applying it once except on
the two outputs `BRK.A` and `BF.A` (reachable from inputs such as `BRK/A`),
which a second application maps on to `BRK.B` / `BF.B`. -/
theorem c9_amended_exposure_dedup :
    (∀ (cands : List ScreeningCandidate) (rules : WheelRules) (now : ℤ)
      (my : ℚ) (qf : Bool) (target : ℕ),
      ((build_csp_picks cands rules now my qf target).map
        (fun p => normalize_exposure_symbol p.ticker)).Nodup) ∧
    (∀ s : List Char,
      normalize_exposure_symbol (normalize_exposure_symbol s) =
        normalize_exposure_symbol s ∨
      normalize_exposure_symbol s = "BRK.A".toList ∨
      normalize_exposure_symbol s = "BF.A".toList) := by
  constructor
  · intro cands rules now my qf target
    exact build_csp_picks_loop_nodup rules now my qf target cands [] []
      (fun p hp => absurd hp (List.not_mem_nil p)) (by simp)
  · intro s
    by_cases hemp : s.isEmpty = true
    · left
      have hs : s = [] := List.isEmpty_iff.mp hemp
      rw [hs]
      rfl
    · have hstrips : py_strip (py_upper (py_strip s)) = py_upper (py_strip s) := by
        rw [py_strip_upper, py_strip_idem]
      have hstrip0 : py_strip (replace_slash (py_upper (py_strip s))) =
          replace_slash (py_upper (py_strip s)) := by
        rw [py_strip_replace_slash, hstrips]
      have hup0 : py_upper (py_strip (replace_slash (py_upper (py_strip s)))) =
          replace_slash (py_upper (py_strip s)) := by
        rw [hstrip0, py_upper_fix_slash]
      by_cases h1 : py_upper (py_strip s) = "GOOG".toList
      · have hfs : normalize_exposure_symbol s = "GOOGL".toList := by
          simp only [normalize_exposure_symbol]
          rw [if_neg hemp, if_pos h1]
        rw [hfs]
        left
        decide
      · have hGOOG0 : replace_slash (py_upper (py_strip s)) ≠
            "GOOG".toList := by
          intro hG
          apply h1
          have hnd : ¬ '.' ∈ replace_slash (py_upper (py_strip s)) := by
            rw [hG]
            decide
          have hself := replace_slash_self_of_no_dot _ hnd
          rw [← hself, hG]
        by_cases h2 : py_upper (py_strip s) = "BRK.A".toList ∨
            py_upper (py_strip s) = "BRK-A".toList
        · have hfs : normalize_exposure_symbol s = "BRK.B".toList := by
            simp only [normalize_exposure_symbol]
            rw [if_neg hemp, if_neg h1, if_pos h2]
          rw [hfs]
          left
          decide
        · by_cases h3 : py_upper (py_strip s) = "BF.A".toList ∨
              py_upper (py_strip s) = "BF-A".toList
          · have hfs : normalize_exposure_symbol s = "BF.B".toList := by
              simp only [normalize_exposure_symbol]
              rw [if_neg hemp, if_neg h1, if_neg h2, if_pos h3]
            rw [hfs]
            left
            decide
          · by_cases hc : (replace_slash (py_upper (py_strip s))).contains '-'
                = true
            · by_cases hb : (replace_slash (py_upper (py_strip s))).takeWhile
                  (fun c => c ≠ '-') = "BRK".toList ∨
                  (replace_slash (py_upper (py_strip s))).takeWhile
                  (fun c => c ≠ '-') = "BF".toList
              · have hfs : normalize_exposure_symbol s =
                    replace_dash (replace_slash (py_upper (py_strip s))) := by
                  simp only [normalize_exposure_symbol]
                  rw [if_neg hemp, if_neg h1, if_neg h2, if_neg h3, if_pos hc,
                    if_pos hb]
                rw [hfs]
                apply normalize_fixed_of_ready
                · rw [py_strip_replace_dash, hstrip0, py_upper_fix_dash]
                · intro hG
                  have hdot : '.' ∈ replace_dash (replace_slash
                      (py_upper (py_strip s))) :=
                    replace_dash_mem_dot _ (List.mem_of_elem_eq_true hc)
                  rw [hG] at hdot
                  exact absurd hdot (by decide)
                · intro hEq
                  have hdd := replace_dash_no_dash
                    (replace_slash (py_upper (py_strip s)))
                  rw [hEq] at hdd
                  exact hdd (by decide)
                · intro hEq
                  have hdd := replace_dash_no_dash
                    (replace_slash (py_upper (py_strip s)))
                  rw [hEq] at hdd
                  exact hdd (by decide)
                · exact replace_slash_fix_dash _
                · intro hcc
                  have hdd := replace_dash_no_dash
                    (replace_slash (py_upper (py_strip s)))
                  exact absurd (List.mem_of_elem_eq_true hcc) hdd
              · have hfs : normalize_exposure_symbol s =
                    replace_slash (py_upper (py_strip s)) := by
                  simp only [normalize_exposure_symbol]
                  rw [if_neg hemp, if_neg h1, if_neg h2, if_neg h3, if_pos hc,
                    if_neg hb]
                rw [hfs]
                apply normalize_fixed_of_ready
                · exact hup0
                · exact hGOOG0
                · intro hEq
                  apply hb
                  left
                  rw [hEq]
                  decide
                · intro hEq
                  apply hb
                  right
                  rw [hEq]
                  decide
                · exact replace_slash_idem _
                · intro _
                  exact hb
            · have hfs : normalize_exposure_symbol s =
                  replace_slash (py_upper (py_strip s)) := by
                simp only [normalize_exposure_symbol]
                rw [if_neg hemp, if_neg h1, if_neg h2, if_neg h3, if_neg hc]
              rw [hfs]
              apply normalize_fixed_of_ready
              · exact hup0
              · exact hGOOG0
              · intro hEq
                apply hc
                rw [hEq]
                decide
              · intro hEq
                apply hc
                rw [hEq]
                decide
              · exact replace_slash_idem _
              · intro hcc
                exact absurd hcc hc

/-- `C9` (counterexample): `normalize_exposure_symbol` is not idempotent:
`BRK/A` normalizes to `BRK.A`, which a second application sends to
`BRK.B`. -/
theorem c9_counterexample_normalize_not_idempotent :
    normalize_exposure_symbol ("BRK/A".toList) = "BRK.A".toList ∧
    normalize_exposure_symbol (normalize_exposure_symbol ("BRK/A".toList)) =
      "BRK.B".toList ∧
    ("BRK.A".toList : List Char) ≠ "BRK.B".toList := by decide

/-- Witness for `C1` at a concrete chain slice: the open-interest floor of
the default rules is non-negative, and the characterization holds at
`[wput1]`. -/
theorem c1_choose_best_put_spec_witness :
    (0:ℚ) ≤ defaultRules.MIN_OPEN_INTEREST ∧
    (choose_best_put_in_delta_band [wput1] 0.20 0.30 7 defaultRules 3.0 =
        none ↔
      ∀ o ∈ [wput1], put_passes o 0.20 0.30 7 defaultRules 3.0 = false) :=
  ⟨by norm_num [defaultRules],
   (c1_choose_best_put_spec [wput1] 0.20 0.30 7 defaultRules 3.0
      (by norm_num [defaultRules])).1⟩

/-- Witness for `C4` at a concrete pick list and budget. -/
theorem c4_portfolio_budget_constraints_witness :
    (0:ℚ) ≤ 1000 ∧
    ((select_portfolio [wpick "A".toList 5 400, wpick "B".toList 4 700,
        wpick "C".toList 3 500] 1000 800 0 2 false).length ≤ 2) :=
  ⟨by norm_num,
   (c4_portfolio_budget_constraints
      [wpick "A".toList 5 400, wpick "B".toList 4 700, wpick "C".toList 3 500]
      1000 800 0 2 false (by norm_num)).1⟩

set_option maxHeartbeats 4000000 in
/-- Witness for `C10`: the concrete run on `[wcand]` emits `wrow`, whose
annualized yield (1.825) is within the cap (3.0). -/
theorem c10_annualized_yield_cap_witness :
    wrow ∈ build_csp_picks [wcand] defaultRules 0 3.0 false 10 ∧
    wrow.annualized_yield ≤ 3.0 := by
  have heq : build_csp_picks [wcand] defaultRules 0 3.0 false 10 = [wrow] := by
    norm_num [build_csp_picks, build_csp_picks_loop, build_pick_for_candidate,
      earnings_blocked, resolve_earnings_in_days, wcand, wrow,
      csp_select_window, attempt_window, find_expiration_in_window,
      parse_expirations_from_chain, extract_put_options_for_exp,
      count_put_contracts_diagnostics, choose_best_put_in_delta_band,
      pick_best_by_score, put_candidate_of, check_liquidity, spread_ok,
      abs_spread_cap_for_mid, premium_estimate, candidate_total_score,
      compute_total_score, liquidity_bonus_of, is_within_dte_window,
      defaultRules, wchain, wput1, wput2, zeroBreakdown, zeroDiagnostics,
      List.insertionSort, List.orderedInsert,
      List.dedup_cons_of_mem, List.dedup_cons_of_not_mem, List.dedup_nil,
      List.filter, List.find?, List.foldl, List.foldr, List.filterMap,
      abs_neg, abs_of_nonneg, SqrtScore.ltB]
  have hmem : wrow ∈ build_csp_picks [wcand] defaultRules 0 3.0 false 10 := by
    rw [heq]
    exact List.mem_singleton_self _
  exact ⟨hmem,
    c10_annualized_yield_cap [wcand] defaultRules 0 3.0 false 10 wrow hmem⟩

end WheelSystem
